import Mathlib

/-!
# Verification of the WDIO → Playwright test-migration core

This file contains a shallow embedding, in Lean 4, of the core algorithms of
the `mcp-server-tests-migration` repository, together with theorems settling
the specification claims about them.

Embedded components (each definition carries a pointer to its source):
* the tag engine (`src/src/utils/tags.js` and `TAG_PATTERNS` in
  `src/src/constants/mappings.js`),
* the selector classifier (`src/src/transformers/selectors.js` and
  `SELECTOR_PATTERNS`),
* the command mapping table (`COMMAND_MAPPINGS`) and the custom-command
  registration handler (`src/src/handlers/toolHandlers.js`),
* the framework classifier (`detectFramework` in `src/src/utils/parser.js`),
* the AST rewrite engine (`performAstMigration` in
  `src/src/transformers/migration.js`),
* the page-object synthesizer (`src/src/transformers/pom.js`).

JavaScript strings are modelled as `List Char` (wrapped into `String` at the
interfaces); the regular expressions of the source are modelled by
direct scanning functions that reproduce the leftmost-match, greedy semantics
of the concrete patterns involved (each such function documents the pattern it
implements).  The external `@babel` parser and generator are not part of the
repository; where the embedded code calls them they are treated as parameters
or modelled explicitly (see `parseExpressionModel`).
-/

namespace MCPMigration

/-! ## Generic character/list utilities -/

/-- Characters of the regex class `[A-Z0-9_-]` used by the bracket tag
pattern `\[([A-Z0-9_-]+)\]` (first entry of `TAG_PATTERNS`). -/
def isTagChar (c : Char) : Bool :=
  ('A' ≤ c && c ≤ 'Z') || ('0' ≤ c && c ≤ '9') || c = '_' || c = '-'

/-- Characters of the regex word class `\w` = `[A-Za-z0-9_]` (no Unicode flag
is set on any of the source patterns, so `\w` is the ASCII class). -/
def isWordChar (c : Char) : Bool :=
  ('A' ≤ c && c ≤ 'Z') || ('a' ≤ c && c ≤ 'z') || ('0' ≤ c && c ≤ '9') || c = '_'

/-- The whitespace class used by `\s` and `String.prototype.trim`.  The
source strings manipulated here are ASCII; the additional Unicode space
code points of the JavaScript class are outside the modelled range. -/
def isSpaceChar (c : Char) : Bool :=
  c = ' ' || c = '\t' || c = '\n' || c = '\r' || c = '\x0b' || c = '\x0c'

/-- Substring test (`String.prototype.includes`): `pat` occurs contiguously
inside `l`. -/
def containsSub (l pat : List Char) : Bool :=
  (List.range (l.length + 1)).any fun i => pat.isPrefixOf (l.drop i)

/-- `a.includes(b)` on strings. -/
def strIncludes (a b : String) : Bool := containsSub a.data b.data

/-! ## Tag engine (`src/src/utils/tags.js`)

`TAG_PATTERNS = [/\[([A-Z0-9_-]+)\]/g, /@(\w+)/g, /#(\w+)/g]`.

Each scanner below reproduces the behaviour of a global regex pass: the
engine tries each start position from left to right, and after a successful
match continues immediately after it.  For these patterns a greedy character
class run admits no backtracking (shortening the run leaves a class
character where the closing delimiter is required), so a match at a position
exists exactly when the maximal run is non-empty and correctly delimited. -/

/-- One global pass of `str.replace(/\[([A-Z0-9_-]+)\]/g, '')`, fuel-indexed
(the fuel is always instantiated with the length of the list). -/
def bracketStripGo : Nat → List Char → List Char
  | 0, l => l
  | _ + 1, [] => []
  | fuel + 1, c :: rest =>
    if c = '[' then
      let run := rest.takeWhile isTagChar
      match rest.dropWhile isTagChar with
      | ']' :: tail =>
        if run.isEmpty then c :: bracketStripGo fuel rest else bracketStripGo fuel tail
      | _ => c :: bracketStripGo fuel rest
    else c :: bracketStripGo fuel rest

def bracketStrip (l : List Char) : List Char := bracketStripGo l.length l

/-- One global pass of `str.replace(/m(\w+)/g, '')` for a one-character
marker `m` (`@` or `#`), fuel-indexed. -/
def markStripGo (mark : Char) (p : Char → Bool) : Nat → List Char → List Char
  | 0, l => l
  | _ + 1, [] => []
  | fuel + 1, c :: rest =>
    if c = mark then
      if (rest.takeWhile p).isEmpty then c :: markStripGo mark p fuel rest
      else markStripGo mark p fuel (rest.dropWhile p)
    else c :: markStripGo mark p fuel rest

def markStrip (mark : Char) (p : Char → Bool) (l : List Char) : List Char :=
  markStripGo mark p l.length l

/-- Captures of the global exec loop for `/\[([A-Z0-9_-]+)\]/g`. -/
def bracketScanGo : Nat → List Char → List (List Char)
  | 0, _ => []
  | _ + 1, [] => []
  | fuel + 1, c :: rest =>
    if c = '[' then
      let run := rest.takeWhile isTagChar
      match rest.dropWhile isTagChar with
      | ']' :: tail =>
        if run.isEmpty then bracketScanGo fuel rest else run :: bracketScanGo fuel tail
      | _ => bracketScanGo fuel rest
    else bracketScanGo fuel rest

def bracketScan (l : List Char) : List (List Char) := bracketScanGo l.length l

/-- Captures of the global exec loop for `/m(\w+)/g`. -/
def markScanGo (mark : Char) (p : Char → Bool) : Nat → List Char → List (List Char)
  | 0, _ => []
  | _ + 1, [] => []
  | fuel + 1, c :: rest =>
    if c = mark then
      if (rest.takeWhile p).isEmpty then markScanGo mark p fuel rest
      else rest.takeWhile p :: markScanGo mark p fuel (rest.dropWhile p)
    else markScanGo mark p fuel rest

def markScan (mark : Char) (p : Char → Bool) (l : List Char) : List (List Char) :=
  markScanGo mark p l.length l

/-- `String.prototype.trim` (both ends). -/
def trimWs (l : List Char) : List Char :=
  ((l.dropWhile isSpaceChar).reverse.dropWhile isSpaceChar).reverse

/-- `str.replace(/\s+/g, ' ')`: every maximal whitespace run becomes one
space. -/
def collapseWsGo : Nat → List Char → List Char
  | 0, l => l
  | _ + 1, [] => []
  | fuel + 1, c :: rest =>
    if isSpaceChar c then ' ' :: collapseWsGo fuel (rest.dropWhile isSpaceChar)
    else c :: collapseWsGo fuel rest

def collapseWs (l : List Char) : List Char := collapseWsGo l.length l

/-- `match[1].toLowerCase()` on the ASCII captures produced by the tag
patterns. -/
def lowerTok (l : List Char) : List Char := l.map Char.toLower

/-- `extractTagsFromString` (src/src/utils/tags.js, lines 12–24): run the
three tag patterns in order, adding each lowercased capture to a `Set`
(insertion-ordered, duplicates collapsed), and return the set as an array. -/
def extractTagsFromString (str : String) : List String :=
  let toks :=
    bracketScan str.data ++ markScan '@' isWordChar str.data ++ markScan '#' isWordChar str.data
  (toks.map fun t => String.mk (lowerTok t)).foldl
    (fun acc x => if x ∈ acc then acc else acc ++ [x]) []

/-- `removeTagsFromString` (src/src/utils/tags.js, lines 31–37): strip the
three patterns in order, then `.trim().replace(/\s+/g, ' ')`. -/
def removeTagsFromString (str : String) : String :=
  String.mk (collapseWs (trimWs
    (markStrip '#' isWordChar (markStrip '@' isWordChar (bracketStrip str.data)))))

/-! ## Selector classifier (`src/src/transformers/selectors.js`)

`SELECTOR_PATTERNS` (src/src/constants/mappings.js, lines 65–75) contains the
unanchored attribute patterns used by `transformSelector`:
`dataTestId = /\[data-test-id=['"]([^'"]+)['"]\]/` and the analogous
`ariaLabel`, `role`, `placeholder` patterns. -/

def isQuote (c : Char) : Bool := c = '\'' || c = '"'

/-- Drop an exact literal character sequence from the front of a list. -/
def dropPre : List Char → List Char → Option (List Char)
  | [], l => some l
  | _ :: _, [] => none
  | p :: ps, c :: cs => if c = p then dropPre ps cs else none

/-- Attempt the pattern `PRE['"]([^'"]+)['"]\]` at exactly this position
(`PRE` is the literal part such as `[data-test-id=`).  The greedy capture
class `[^'"]+` admits no backtracking: shortening the run would leave a
non-quote character where `['"]` is required. -/
def attrMatchAt (pre l : List Char) : Option (List Char) :=
  match dropPre pre l with
  | none => none
  | some r =>
    match r with
    | [] => none
    | q :: r2 =>
      if isQuote q then
        let run := r2.takeWhile (fun c => !isQuote c)
        match r2.dropWhile (fun c => !isQuote c) with
        | q2 :: ']' :: _ => if !run.isEmpty && isQuote q2 then some run else none
        | _ => none
      else none

/-- Leftmost unanchored match (`String.prototype.match` without `^`): try the
pattern at each position from the left, returning the first capture. -/
def attrCapture (pre : List Char) : List Char → Option (List Char)
  | [] => none
  | l@(_ :: rest) =>
    match attrMatchAt pre l with
    | some cap => some cap
    | none => attrCapture pre rest

/-- Line terminators excluded by `.` in a JavaScript regex without the `s`
flag. -/
def isLineTermChar (c : Char) : Bool :=
  c = '\n' || c = '\r' || c = '\u2028' || c = '\u2029'

/-- `/^(button|a)\[.*\]$/`: the selector is a recognised tag name, then `[`,
then any non-line-terminator characters, then `]` at the very end. -/
def btnLinkTagMatch (s : List Char) : Bool :=
  let body : List Char → Bool := fun r =>
    match r.reverse with
    | ']' :: mid => mid.all fun c => !isLineTermChar c
    | _ => false
  (match dropPre "button[".data s with
   | some r => body r
   | none =>
     match dropPre "a[".data s with
     | some r => body r
     | none => false)

/-- `/^(button|a)$/`. -/
def btnLinkExact (s : List Char) : Bool := s = "button".data || s = "a".data

/-- The condition of the button/link branch of `transformSelector`
(selectors.js, line 55). -/
def isButtonLink (s : List Char) : Bool := btnLinkTagMatch s || btnLinkExact s

/-- Result record of `transformSelector` (`type` values are the source string
literals `testId`, `label`, `role`, `placeholder`, `css`). -/
structure SelectorTransform where
  code : String
  type : String
  original : String
  note : Option String := none
  suggestion : Option String := none
deriving DecidableEq

/-- `transformSelector` (src/src/transformers/selectors.js, lines 13–71):
priority chain data-test-id, aria-label, role, placeholder, button/link,
css fallback; first match wins. -/
def transformSelector (selector : String) : SelectorTransform :=
  match attrCapture "[data-test-id=".data selector.data with
  | some cap =>
    { code := "page.getByTestId('" ++ String.mk cap ++ "')", type := "testId"
      original := selector }
  | none =>
  match attrCapture "[aria-label=".data selector.data with
  | some cap =>
    { code := "page.getByLabel('" ++ String.mk cap ++ "')", type := "label"
      original := selector }
  | none =>
  match attrCapture "[role=".data selector.data with
  | some cap =>
    { code := "page.getByRole('" ++ String.mk cap ++ "')", type := "role"
      original := selector }
  | none =>
  match attrCapture "[placeholder=".data selector.data with
  | some cap =>
    { code := "page.getByPlaceholder('" ++ String.mk cap ++ "')", type := "placeholder"
      original := selector }
  | none =>
  if isButtonLink selector.data then
    { code := "page.getByRole('" ++
        (if "button".data.isPrefixOf selector.data then "button" else "link") ++ "')"
      type := "role", original := selector
      note := some "Consider adding \x7b name: \"...\" \x7d for specificity" }
  else
    { code := "page.locator('" ++ selector ++ "')", type := "css", original := selector
      suggestion := some "Consider using data-test-id for more reliable selectors" }

/-! ## Command mapping table (`src/src/constants/mappings.js`, lines 8–62)

`COMMAND_MAPPINGS` is a plain object literal; it is modelled as an ordered
association list of own keys.  Brace characters inside the option literals
are written with their escape codes. -/

structure CommandMapping where
  method : String
  options : Option String := none
  description : String
deriving DecidableEq

def COMMAND_MAPPINGS : List (String × CommandMapping) := [
  ("setValue", { method := "fill", description := "Clears and fills input" }),
  ("addValue", { method := "pressSequentially", description := "Types without clearing" }),
  ("clearValue", { method := "clear", description := "Clears input field" }),
  ("getValue", { method := "inputValue", description := "Gets input value" }),
  ("getText", { method := "textContent", description := "Gets element text" }),
  ("getHTML", { method := "innerHTML", description := "Gets inner HTML" }),
  ("getAttribute", { method := "getAttribute", description := "Gets attribute value" }),
  ("click", { method := "click", description := "Clicks element" }),
  ("doubleClick", { method := "dblclick", description := "Double clicks element" }),
  ("moveTo", { method := "hover", description := "Hovers over element" }),
  ("scrollIntoView", { method := "scrollIntoViewIfNeeded", description := "Scrolls element into view" }),
  ("isDisplayed", { method := "isVisible", description := "Checks visibility" }),
  ("isEnabled", { method := "isEnabled", description := "Checks if enabled" }),
  ("isSelected", { method := "isChecked", description := "Checks if selected/checked" }),
  ("isExisting", { method := "count", description := "Checks existence (count > 0)" }),
  ("waitForDisplayed", { method := "waitFor", options := some "\x7b state: \"visible\" \x7d", description := "Waits for visibility" }),
  ("waitForClickable", { method := "waitFor", options := some "\x7b state: \"visible\" \x7d", description := "Waits for clickable state" }),
  ("waitForExist", { method := "waitFor", options := some "\x7b state: \"attached\" \x7d", description := "Waits for existence" }),
  ("waitForEnabled", { method := "waitFor", options := some "\x7b state: \"visible\" \x7d", description := "Waits for enabled state" }),
  ("selectByVisibleText", { method := "selectOption", description := "Selects dropdown option by text" }),
  ("selectByIndex", { method := "selectOption", description := "Selects dropdown option by index" }),
  ("selectByAttribute", { method := "selectOption", description := "Selects dropdown option by attribute" }),
  ("browser.url", { method := "page.goto", description := "Navigates to URL" }),
  ("browser.getUrl", { method := "page.url", description := "Gets current URL" }),
  ("browser.getTitle", { method := "page.title", description := "Gets page title" }),
  ("browser.pause", { method := "page.waitForTimeout", description := "Pauses execution" }),
  ("browser.debug", { method := "page.pause", description := "Opens Playwright inspector" }),
  ("browser.execute", { method := "page.evaluate", description := "Executes JavaScript" }),
  ("browser.executeAsync", { method := "page.evaluate", description := "Executes async JavaScript" }),
  ("browser.keys", { method := "page.keyboard.press", description := "Presses keyboard keys" }),
  ("browser.refresh", { method := "page.reload", description := "Reloads page" }),
  ("browser.back", { method := "page.goBack", description := "Navigates back" }),
  ("browser.forward", { method := "page.goForward", description := "Navigates forward" }),
  ("browser.deleteCookies", { method := "context.clearCookies", description := "Clears cookies" }),
  ("browser.getCookies", { method := "context.cookies", description := "Gets cookies" }),
  ("browser.setCookies", { method := "context.addCookies", description := "Sets cookies" }),
  ("browser.newWindow", { method := "context.newPage", description := "Opens new window/tab" }),
  ("browser.switchWindow", { method := "page.bringToFront", description := "Switches to window" }),
  ("browser.closeWindow", { method := "page.close", description := "Closes window" }),
  ("browser.getWindowHandles", { method := "context.pages", description := "Gets all page handles" }),
  ("browser.getWindowHandle", { method := "page", description := "Gets current page handle" }),
  ("browser.switchToFrame", { method := "page.frameLocator", description := "Switches to frame" }),
  ("browser.switchToParentFrame", { method := "page.mainFrame", description := "Switches to parent frame" }),
  ("browser.acceptAlert", { method := "page.on(\"dialog\")", description := "Accepts dialog" }),
  ("browser.dismissAlert", { method := "page.on(\"dialog\")", description := "Dismisses dialog" }),
  ("browser.getAlertText", { method := "dialog.message", description := "Gets dialog text" }),
  ("browser.sendAlertText", { method := "dialog.accept", description := "Sends text to dialog" }),
  ("browser.takeScreenshot", { method := "page.screenshot", description := "Takes screenshot" }),
  ("browser.saveScreenshot", { method := "page.screenshot", options := some "\x7b path: \"...\" \x7d", description := "Saves screenshot" }),
  ("browser.uploadFile", { method := "locator.setInputFiles", description := "Uploads file" })]

/-- Own-property lookup `COMMAND_MAPPINGS[name]` on the static table. -/
def lookupMapping (name : String) : Option CommandMapping :=
  (COMMAND_MAPPINGS.find? fun kv => kv.1 = name).map (·.2)

/-! ## Custom command registration (`src/src/handlers/toolHandlers.js`,
`handleRegisterCustomCommands`, lines 394–433)

The handler parses a JSON object and runs
`if (!COMMAND_MAPPINGS[wdioCmd]) COMMAND_MAPPINGS[wdioCmd] = mapping` for
each entry.  The guard is JavaScript *truthiness* of the present value, not
key presence, so the runtime table is modelled with JSON values.  Property
access is modelled as own-key lookup. -/

inductive JsValue where
  | nullV
  | boolV (b : Bool)
  | numV (n : Int)
  | strV (s : String)
  | objV (fields : List (String × String))
deriving DecidableEq

/-- JavaScript truthiness of a present property value; an absent property
(`undefined`) is falsy. -/
def truthy : Option JsValue → Bool
  | none => false
  | some .nullV => false
  | some (.boolV b) => b
  | some (.numV n) => !(n = 0)
  | some (.strV s) => !(s = "")
  | some (.objV _) => true

abbrev JsTable := List (String × JsValue)

def getProp : JsTable → String → Option JsValue
  | [], _ => none
  | kv :: rest, k => if kv.1 = k then some kv.2 else getProp rest k

/-- JavaScript property assignment `t[k] = v`: overwrite in place if the key
exists, otherwise append. -/
def setProp (t : JsTable) (k : String) (v : JsValue) : JsTable :=
  match t with
  | [] => [(k, v)]
  | kv :: rest => if kv.1 = k then (k, v) :: rest else kv :: setProp rest k v

/-- The registration loop of `handleRegisterCustomCommands`:
`for (const [wdioCmd, mapping] of Object.entries(customCommands)) {
   if (!COMMAND_MAPPINGS[wdioCmd]) { COMMAND_MAPPINGS[wdioCmd] = mapping; ... } }`. -/
def registerCustomCommands (cmds : JsTable) (table : JsTable) : JsTable :=
  cmds.foldl (fun t kv => if truthy (getProp t kv.1) then t else setProp t kv.1 kv.2) table

/-- A `CommandMapping` record as the JSON-like object value it is at runtime
(object values are truthy regardless of their fields). -/
def mappingToJs (m : CommandMapping) : JsValue :=
  .objV ([("method", m.method)] ++
    (match m.options with | some o => [("options", o)] | none => []) ++
    [("description", m.description)])

/-- The runtime state of the mapping table at process start. -/
def initialJsTable : JsTable := COMMAND_MAPPINGS.map fun kv => (kv.1, mappingToJs kv.2)

/-! ## Syntax-tree model

The Babel AST fragment manipulated by the repository, as mutually inductive
types (argument and property lists are their own inductives so that all
functions below are structurally recursive and kernel-computable).
Statements (imports, variable declarations, expression statements) occur at
program top level; callback bodies hold expression statements. -/

structure ObjPatProp where
  key : String
  value : String
  shorthand : Bool
deriving DecidableEq

/-- Binding patterns: plain identifiers and object patterns (the page-handle
injection builds `t.objectPattern([t.objectProperty(page, page, false, true)])`). -/
inductive Pat where
  | id (name : String)
  | objPat (props : List ObjPatProp)
deriving DecidableEq

mutual
inductive Expr where
  | str (s : String)
  | num (n : Int)
  | id (name : String)
  | member (obj : Expr) (prop : String)
  | call (callee : Expr) (args : ExprList)
  | arrow (params : List Pat) (body : ExprList)
  | fnExpr (params : List Pat) (body : ExprList)
  | object (props : PropList)
  | array (elems : ExprList)
inductive ExprList where
  | nil
  | cons (e : Expr) (es : ExprList)
inductive PropList where
  | nil
  | cons (key : String) (v : Expr) (ps : PropList)
end

inductive ImportSpec where
  | named (localName importedName : String)
  | defaultSpec (localName : String)
  | starSpec (localName : String)
deriving DecidableEq

structure VarDecl where
  binder : Pat
  init : Option Expr

inductive Stmt where
  | importD (specs : List ImportSpec) (source : String)
  | varD (decls : List VarDecl)
  | exprS (e : Expr)

abbrev Program := List Stmt

/-- Convenience converter for writing argument lists. -/
def elist : List Expr → ExprList
  | [] => .nil
  | e :: es => .cons e (elist es)

/-! ## Framework classifier (`detectFramework`, src/src/utils/parser.js,
lines 29–79)

One traversal sets `hasWdio` / `hasPlaywright`:
* a call to `$` or `$$` → wdio;
* a call whose callee is a member expression on the identifier `page` →
  playwright;
* an import from `@playwright/test` → playwright; an import whose source
  contains `webdriverio` or `wdio` → wdio;
* a `require` declarator with argument `@playwright/test` → playwright; with
  an argument containing `chai` or `wdio` → wdio. -/

mutual
def exprHasWdio : Expr → Bool
  | .str _ => false
  | .num _ => false
  | .id _ => false
  | .member o _ => exprHasWdio o
  | .call c args =>
    (match c with | .id n => n = "$" || n = "$$" | _ => false) ||
      exprHasWdio c || exprListHasWdio args
  | .arrow _ b => exprListHasWdio b
  | .fnExpr _ b => exprListHasWdio b
  | .object ps => propListHasWdio ps
  | .array es => exprListHasWdio es
def exprListHasWdio : ExprList → Bool
  | .nil => false
  | .cons e es => exprHasWdio e || exprListHasWdio es
def propListHasWdio : PropList → Bool
  | .nil => false
  | .cons _ v ps => exprHasWdio v || propListHasWdio ps
end

mutual
def exprHasPw : Expr → Bool
  | .str _ => false
  | .num _ => false
  | .id _ => false
  | .member o _ => exprHasPw o
  | .call c args =>
    (match c with | .member (.id "page") _ => true | _ => false) ||
      exprHasPw c || exprListHasPw args
  | .arrow _ b => exprListHasPw b
  | .fnExpr _ b => exprListHasPw b
  | .object ps => propListHasPw ps
  | .array es => exprListHasPw es
def exprListHasPw : ExprList → Bool
  | .nil => false
  | .cons e es => exprHasPw e || exprListHasPw es
def propListHasPw : PropList → Bool
  | .nil => false
  | .cons _ v ps => exprHasPw v || propListHasPw ps
end

/-- The `require(...)` pattern of the `VariableDeclarator` visitor, with the
given test on the string argument. -/
def isRequireWith (test : String → Bool) (d : VarDecl) : Bool :=
  match d.init with
  | some (.call (.id "require") (.cons (.str v) _)) => test v
  | _ => false

def stmtHasWdio : Stmt → Bool
  | .importD _ source => strIncludes source "webdriverio" || strIncludes source "wdio"
  | .varD decls =>
    decls.any fun d =>
      isRequireWith (fun v => strIncludes v "chai" || strIncludes v "wdio") d ||
        (match d.init with | some e => exprHasWdio e | none => false)
  | .exprS e => exprHasWdio e

def stmtHasPw : Stmt → Bool
  | .importD _ source => source = "@playwright/test"
  | .varD decls =>
    decls.any fun d =>
      isRequireWith (fun v => v = "@playwright/test") d ||
        (match d.init with | some e => exprHasPw e | none => false)
  | .exprS e => exprHasPw e

structure FrameworkVerdict where
  isWdio : Bool
  isPlaywright : Bool
  isMixed : Bool
  isUnknown : Bool
deriving DecidableEq

/-- `detectFramework`: the verdict computed from the two flags. -/
def detectFramework (prog : Program) : FrameworkVerdict :=
  let hasWdio := prog.any stmtHasWdio
  let hasPlaywright := prog.any stmtHasPw
  { isWdio := hasWdio && !hasPlaywright
    isPlaywright := hasPlaywright && !hasWdio
    isMixed := hasWdio && hasPlaywright
    isUnknown := !hasWdio && !hasPlaywright }

/-! ## Fragment re-parsing (the `$`/`$$` rule's `parser.parseExpression`)

`performAstMigration` rebuilds each element lookup by parsing the code string
returned by `transformSelector` (migration.js, line 164):
`parser.parseExpression(transformed.code)` — called without error recovery,
so a malformed fragment throws. -/

def isHexDigit (c : Char) : Bool :=
  ('0' ≤ c && c ≤ '9') || ('a' ≤ c && c ≤ 'f') || ('A' ≤ c && c ≤ 'F')

def hexVal (c : Char) : Nat :=
  if '0' ≤ c && c ≤ '9' then c.toNat - '0'.toNat
  else if 'a' ≤ c && c ≤ 'f' then c.toNat - 'a'.toNat + 10
  else c.toNat - 'A'.toNat + 10

def hexListVal (l : List Char) : Nat := l.foldl (fun a c => 16 * a + hexVal c) 0

def isOctDigit (c : Char) : Bool := '0' ≤ c && c ≤ '7'

def octVal (c : Char) : Nat := c.toNat - '0'.toNat

/-- The single-character escapes of an ECMAScript string literal; a
character without special meaning escapes to itself (so `\'` is `'`,
`\a` is `a`; the non-octal digits `8` and `9` also reach this identity
case, the Annex B sloppy-mode reading). -/
def escChar (c : Char) : Char :=
  if c = 'n' then '\n'
  else if c = 't' then '\t'
  else if c = 'r' then '\r'
  else if c = 'b' then '\x08'
  else if c = 'f' then '\x0c'
  else if c = 'v' then '\x0b'
  else c

/-- The body of a single-quoted string literal, scanned by the sloppy-mode
ECMAScript grammar from just after the opening quote: an unescaped `'`
closes the literal (returning the cooked value and the remaining
characters); a backslash starts an escape — `\xHH` and `\uHHHH` /
`\u\x7bH+\x7d` demand well-formed hex digits (a malformed one is a
`SyntaxError`), legacy octal sequences and `\8`/`\9` are accepted in
sloppy mode, a backslash before a line terminator is a line continuation,
and any other escaped character stands for itself — while an unescaped
`\n` or `\r` leaves the literal unterminated (U+2028/U+2029 are legal in
string literals).  Escapes denoting lone surrogates are outside the
modelled character range. -/
def scanLitGo : Nat → List Char → Option (List Char × List Char)
  | 0, _ => none
  | _ + 1, [] => none
  | fuel + 1, c :: rest =>
    if c = '\'' then some ([], rest)
    else if c = '\\' then
      match rest with
      | [] => none
      | e :: r2 =>
        if e = 'x' then
          match r2 with
          | h1 :: h2 :: r3 =>
            if isHexDigit h1 && isHexDigit h2 then
              (scanLitGo fuel r3).map fun p => (Char.ofNat (16 * hexVal h1 + hexVal h2) :: p.1, p.2)
            else none
          | _ => none
        else if e = 'u' then
          match r2 with
          | '{' :: r3 =>
            let ds := r3.takeWhile isHexDigit
            (match r3.dropWhile isHexDigit with
             | '}' :: r4 =>
               if ds.isEmpty || decide (0x10FFFF < hexListVal ds) then none
               else (scanLitGo fuel r4).map fun p => (Char.ofNat (hexListVal ds) :: p.1, p.2)
             | _ => none)
          | h1 :: h2 :: h3 :: h4 :: r3 =>
            if isHexDigit h1 && isHexDigit h2 && isHexDigit h3 && isHexDigit h4 then
              (scanLitGo fuel r3).map fun p =>
                (Char.ofNat (hexListVal [h1, h2, h3, h4]) :: p.1, p.2)
            else none
          | _ => none
        else if e = '\n' || e = '\u2028' || e = '\u2029' then scanLitGo fuel r2
        else if e = '\r' then
          match r2 with
          | '\n' :: r3 => scanLitGo fuel r3
          | _ => scanLitGo fuel r2
        else if isOctDigit e then
          -- LegacyOctalEscapeSequence: up to three octal digits, three only
          -- when the first is 0–3
          match r2 with
          | d2 :: r3 =>
            if isOctDigit d2 then
              if e ≤ '3' then
                match r3 with
                | d3 :: r4 =>
                  if isOctDigit d3 then
                    (scanLitGo fuel r4).map fun p =>
                      (Char.ofNat (64 * octVal e + 8 * octVal d2 + octVal d3) :: p.1, p.2)
                  else
                    (scanLitGo fuel r3).map fun p =>
                      (Char.ofNat (8 * octVal e + octVal d2) :: p.1, p.2)
                | [] =>
                  (scanLitGo fuel r3).map fun p =>
                    (Char.ofNat (8 * octVal e + octVal d2) :: p.1, p.2)
              else
                (scanLitGo fuel r3).map fun p =>
                  (Char.ofNat (8 * octVal e + octVal d2) :: p.1, p.2)
            else (scanLitGo fuel r2).map fun p => (Char.ofNat (octVal e) :: p.1, p.2)
          | [] => (scanLitGo fuel r2).map fun p => (Char.ofNat (octVal e) :: p.1, p.2)
        else (scanLitGo fuel r2).map fun p => (escChar e :: p.1, p.2)
    else if c = '\n' || c = '\r' then none
    else (scanLitGo fuel rest).map fun p => (c :: p.1, p.2)

/-- Models `@babel/parser.parseExpression` on the code fragments that
`transformSelector` produces, which all have the shape `page.FN('CONTENT')`
with `FN` drawn from the classifier's fixed method vocabulary.  The
interpolated `CONTENT` is scanned as the body of the single-quoted literal
(`scanLitGo`): a well-formed literal that closes exactly at the fragment's
final quote — leaving precisely `)` — parses to the member call on `page`
with the cooked string-literal argument; a malformed escape or an unescaped
line terminator is a `SyntaxError`.  When an unescaped `'` inside `CONTENT`
closes the literal early, the selector's tail re-enters the expression
grammar, which fails for ordinary selector text (`page.locator('a'b')`:
after the literal `'a'` the identifier `b` cannot continue the call); the
model reports failure for every early close, which narrows the success set
only for selector strings that themselves spell a valid JavaScript
continuation — a case no property below relies on. -/
def parseExpressionModel (s : String) : Option Expr :=
  match dropPre "page.".data s.data with
  | none => none
  | some r =>
    let fn := r.takeWhile fun c => !(c = '(')
    match r.dropWhile fun c => !(c = '(') with
    | '(' :: '\'' :: rest =>
      if fn.isEmpty then none
      else
        match scanLitGo rest.length rest with
        | some (body, [')']) =>
          some (.call (.member (.id "page") (String.mk fn)) (.cons (.str (String.mk body)) .nil))
        | _ => none
    | _ => none

/-! ## Rewrite engine (`performAstMigration`,
src/src/transformers/migration.js, lines 22–244)

The Babel visitor mutates a node, then the traversal descends into the
(mutated) node's children; `path.replaceWith` additionally requeues the
replacement node, so the visitor runs once on it.  The functions below
reproduce that behaviour functionally.  Freshly constructed nodes that
consist only of identifiers and literals (the `test.describe`-style callees,
the tag-options object, the injected parameter pattern, the rebuilt name
literal) have no visitable content — the traversal is the identity on them —
so the rewrite recurses only into original subtrees and into the requeued
`$`-replacement (handled by `revisitFragment`). -/

structure MigSt where
  changes : List String
  tags : List String
  hasPwImport : Bool
deriving DecidableEq

def pushChange (st : MigSt) (c : String) : MigSt :=
  { st with changes := st.changes ++ [c] }

/-- `import { test, expect } from '@playwright/test'`, as built by
`t.importDeclaration` at migration.js lines 44–48, 62–68 and 198–204. -/
def pwImportStmt : Stmt :=
  .importD [.named "test" "test", .named "expect" "expect"] "@playwright/test"

/-- The injected parameter `{ page }`
(`t.objectPattern([t.objectProperty(page, page, false, true)])`). -/
def pagePat : Pat := .objPat [{ key := "page", value := "page", shorthand := true }]

/-- `Array.prototype.join(', ')`. -/
def joinComma : List String → String
  | [] => ""
  | [s] => s
  | s :: rest => s ++ ", " ++ joinComma rest

/-- The `hookMap` of migration.js, lines 134–139. -/
def hookTargetOf : String → Option String
  | "before" => some "beforeAll"
  | "after" => some "afterAll"
  | "beforeEach" => some "beforeEach"
  | "afterEach" => some "afterEach"
  | _ => none

/-- `s.split('.')`. -/
def splitDotGo (acc : List Char) : List Char → List (List Char)
  | [] => [acc.reverse]
  | c :: rest => if c = '.' then acc.reverse :: splitDotGo [] rest else splitDotGo (c :: acc) rest

def splitDot (s : String) : List String := (splitDotGo [] s.data).map String.mk

/-- The property names a bare object literal inherits from
`Object.prototype`, all with truthy values (ten functions, the
`constructor` reference to `Object`, and the `__proto__` accessor).  A
bracket lookup such as `hookMap[callee.name]` or
`COMMAND_MAPPINGS[methodName]` is truthy for these names even though they
are not own keys of the literal. -/
def objectProtoTruthy : String → Bool
  | "constructor" => true
  | "hasOwnProperty" => true
  | "isPrototypeOf" => true
  | "propertyIsEnumerable" => true
  | "toLocaleString" => true
  | "toString" => true
  | "valueOf" => true
  | "__defineGetter__" => true
  | "__defineSetter__" => true
  | "__lookupGetter__" => true
  | "__lookupSetter__" => true
  | "__proto__" => true
  | _ => false

/-- The member-command rules of the `CallExpression` visitor (migration.js,
lines 171–192).  `methodName` is read once, before any mutation:
1. if `COMMAND_MAPPINGS[methodName]` is truthy, the property is renamed to
   `mapping.method` and the rename is logged — for an own key that is the
   mapped method; for a name inherited from `Object.prototype` (the lookup
   is truthy there too) the inherited function has no `method` property, so
   the assigned value and the interpolated log text are both `undefined`
   (the resulting identifier node's non-string name is written here as the
   name "undefined");
2. if additionally the receiver is the identifier `browser` and
   `browser.<methodName>` is a key, receiver and property are replaced by the
   first two dot-separated parts of the mapped target (for a one-part target
   the destructured `method` is `undefined`; written here as the identifier
   name "undefined" — no claim exercises that corner).
Returns the new receiver, the new property name and the updated state. -/
def renameMember (obj : Expr) (prop : String) (st : MigSt) : Expr × String × MigSt :=
  let step1 :=
    match lookupMapping prop with
    | some m => (m.method, pushChange st ("Transformed ." ++ prop ++ "() to ." ++ m.method ++ "()"))
    | none =>
      if objectProtoTruthy prop then
        ("undefined", pushChange st ("Transformed ." ++ prop ++ "() to .undefined()"))
      else (prop, st)
  match obj with
  | .id "browser" =>
    (match lookupMapping ("browser." ++ prop) with
     | some m =>
       let parts := splitDot m.method
       (Expr.id ((parts.get? 0).getD ""), (parts.get? 1).getD "undefined",
        pushChange step1.2 ("Transformed browser." ++ prop ++ " to " ++ m.method))
     | none => (.id "browser", step1.1, step1.2))
  | _ => (obj, step1.1, step1.2)

/-- The requeued visit of a `$`-replacement fragment: the fragment is
`page.FN('CONTENT')`, so of the visitor's rules only the member-command
rules can fire, and the child traversal (an identifier and a string literal)
is the identity. -/
def revisitFragment (e : Expr) (st : MigSt) : Expr × MigSt :=
  match e with
  | .call (.member obj prop) args =>
    let r := renameMember obj prop st
    (.call (.member r.1 r.2.1) args, r.2.2)
  | e => (e, st)

/-- Callee shapes the `CallExpression` visitor can act on: an identifier
(`describe`/`it`/hook/`$`/`$$` rules) or a member expression (command
rules).  Any other callee shape is merely descended into. -/
def calleeDirect : Expr → Bool
  | .id _ => true
  | .member _ _ => true
  | _ => false

mutual

/-- The expression part of the traversal of `performAstMigration`: apply the
`CallExpression` visitor to each call node (in pre-order), then descend. -/
def rewriteExpr : Expr → MigSt → Except String (Expr × MigSt)
  | .str s, st => .ok (.str s, st)
  | .num n, st => .ok (.num n, st)
  | .id n, st => .ok (.id n, st)
  | .member obj prop, st =>
    match rewriteExpr obj st with
    | .error e => .error e
    | .ok (obj2, st2) => .ok (.member obj2 prop, st2)
  | .arrow ps body, st =>
    match rewriteExprList body st with
    | .error e => .error e
    | .ok (body2, st2) => .ok (.arrow ps body2, st2)
  | .fnExpr ps body, st =>
    match rewriteExprList body st with
    | .error e => .error e
    | .ok (body2, st2) => .ok (.fnExpr ps body2, st2)
  | .object props, st =>
    match rewritePropList props st with
    | .error e => .error e
    | .ok (props2, st2) => .ok (.object props2, st2)
  | .array es, st =>
    match rewriteExprList es st with
    | .error e => .error e
    | .ok (es2, st2) => .ok (.array es2, st2)
  | .call c args, st =>
    if calleeDirect c then
      match c with
      | .id name =>
        if name = "describe" then
          -- describe → test.describe (lines 85–91)
          rewriteArgsOnly (.member (.id "test") "describe") args
            (pushChange st "Transformed describe to test.describe")
        else if name = "it" then
          -- it → test, with tag migration (lines 94–131)
          rewriteItArgs args st
        else
          match hookTargetOf name with
          | some target =>
            -- hooks → test.<hook> with parameter injection into the first
            -- argument (lines 140–155)
            rewriteHookArgs name target args st
          | none =>
            if objectProtoTruthy name then
              -- `hookMap[callee.name]` is truthy via `Object.prototype`, so
              -- the hook rule fires, but the looked-up value is not a
              -- string: the `t.identifier(hookMap[callee.name])` builder
              -- validates its name field and throws
              .error ("TypeError: t.identifier rejects the inherited hookMap[" ++
                name ++ "] value")
            else if name = "$" || name = "$$" then
              -- $ and $$ selector replacement (lines 158–169)
              rewriteDollarArgs name args st
            else
              -- no rule for this identifier callee; descend into the arguments
              rewriteArgsOnly (.id name) args st
      | .member obj prop =>
        -- member-command rules (lines 171–192), then descent into the
        -- (possibly replaced) receiver and the arguments.  A replaced receiver
        -- is a fresh bare identifier, on which the traversal is the identity.
        let r := renameMember obj prop st
        match obj with
        | .id _ => rewriteArgsOnly (.member r.1 r.2.1) args r.2.2
        | _ =>
          (match rewriteExpr obj r.2.2 with
           | .error e => .error e
           | .ok (obj2, st2) =>
             match rewriteExprList args st2 with
             | .error e => .error e
             | .ok (args2, st3) => .ok (.call (.member obj2 r.2.1) args2, st3))
      | _ =>
        -- unreachable under the guard; descend into the arguments
        rewriteArgsOnly c args st
    else
      -- any other callee shape: no rule fires; descend into callee and
      -- arguments
      match rewriteExpr c st with
      | .error e => .error e
      | .ok (c2, st2) =>
        match rewriteExprList args st2 with
        | .error e => .error e
        | .ok (args2, st3) => .ok (.call c2 args2, st3)

/-- Rebuild a call with the given (already rewritten or freshly
constructed) callee and the child-traversed arguments — the shape shared by
the `describe` rule, the member-command rules with an identifier receiver,
and the no-rule identifier fallback. -/
def rewriteArgsOnly (c : Expr) : ExprList → MigSt → Except String (Expr × MigSt)
  | .nil, st => .ok (.call c .nil, st)
  | .cons e rest, st =>
    match rewriteExpr e st with
    | .error er => .error er
    | .ok (e2, st2) =>
      match rewriteExprList rest st2 with
      | .error er => .error er
      | .ok (rest2, st3) => .ok (.call c (.cons e2 rest2), st3)

/-- The `$`/`$$` rule (migration.js, lines 158–169), applied to the call's
argument list: when the first argument is a string literal, the selector
classifier produces a code fragment that is re-parsed (this is the one
fallible step of the pipeline) and the replacement node is re-visited.
Otherwise no rule fires and the arguments are descended into. -/
def rewriteDollarArgs (name : String) : ExprList → MigSt → Except String (Expr × MigSt)
  | .cons (.str sel) _, st =>
    let tr := transformSelector sel
    (match parseExpressionModel tr.code with
     | none => .error ("SyntaxError in replacement expression " ++ tr.code)
     | some frag =>
       let st1 :=
         pushChange st ("Transformed " ++ name ++ "('" ++ sel ++ "') to " ++ tr.code)
       .ok (revisitFragment frag st1))
  | .nil, st => .ok (.call (.id name) .nil, st)
  | .cons e rest, st =>
    match rewriteExpr e st with
    | .error er => .error er
    | .ok (e2, st2) =>
      match rewriteExprList rest st2 with
      | .error er => .error er
      | .ok (rest2, st3) => .ok (.call (.id name) (.cons e2 rest2), st3)

/-- The `it` rule (migration.js, lines 94–131), applied to the call's
argument list: tag migration when the first argument is a string literal
carrying tags, the callee swap to `test`, the fixture change-log entry, and
the zero-parameter page injection into the last argument. -/
def rewriteItArgs : ExprList → MigSt → Except String (Expr × MigSt)
  | .cons (.str testName) rest, st =>
    let extracted := extractTagsFromString testName
    if extracted.isEmpty then
      -- no tags: only the callee swap, the fixture note, injection into
      -- the last argument, then child traversal.  The string first
      -- argument is traversal-inert, so when it is the only (hence
      -- last) argument nothing changes.
      let st1 := pushChange st "Transformed it to test with page fixture"
      match rest with
      | .nil => .ok (.call (.id "test") (.cons (.str testName) .nil), st1)
      | _ =>
        match rewriteArgsInjectLast rest st1 with
        | .error e => .error e
        | .ok (rest2, st2) =>
          .ok (.call (.id "test") (.cons (.str testName) rest2), st2)
    else
      let cleanName := removeTagsFromString testName
      let tagOpts : Expr :=
        .object (.cons "tag" (.array (elist (extracted.map fun t => Expr.str ("@" ++ t)))) .nil)
      let st1 := { st with
        changes := st.changes ++
          ["Migrated tags [" ++ joinComma extracted ++ "] to Playwright tag annotation"]
        tags := st.tags ++ extracted }
      let st2 := pushChange st1 "Transformed it to test with page fixture"
      -- arguments become [cleanName, tagOptions, arguments[1]]; the new
      -- name literal and the options node contain only literals (child
      -- traversal is the identity on them), so only the callback is
      -- rewritten.  An absent callback slot is dropped.
      match rest with
      | .nil =>
        .ok (.call (.id "test") (.cons (.str cleanName) (.cons tagOpts .nil)), st2)
      | .cons (.arrow ps body) _ =>
        match rewriteExprList body st2 with
        | .error e => .error e
        | .ok (body2, st3) =>
          .ok (.call (.id "test") (.cons (.str cleanName) (.cons tagOpts
            (.cons (.arrow (if ps.isEmpty then [pagePat] else ps) body2) .nil))), st3)
      | .cons (.fnExpr ps body) _ =>
        match rewriteExprList body st2 with
        | .error e => .error e
        | .ok (body2, st3) =>
          .ok (.call (.id "test") (.cons (.str cleanName) (.cons tagOpts
            (.cons (.fnExpr (if ps.isEmpty then [pagePat] else ps) body2) .nil))), st3)
      | .cons cb _ =>
        match rewriteExpr cb st2 with
        | .error e => .error e
        | .ok (cb2, st3) =>
          .ok (.call (.id "test") (.cons (.str cleanName) (.cons tagOpts (.cons cb2 .nil))), st3)
  -- first argument not a string literal: the tag block is skipped; the
  -- callee swap, fixture note and last-argument injection still apply
  | .nil, st =>
    .ok (.call (.id "test") .nil, pushChange st "Transformed it to test with page fixture")
  | .cons (.arrow ps body) .nil, st =>
    let st1 := pushChange st "Transformed it to test with page fixture"
    match rewriteExprList body st1 with
    | .error e => .error e
    | .ok (body2, st2) =>
      .ok (.call (.id "test")
        (.cons (.arrow (if ps.isEmpty then [pagePat] else ps) body2) .nil), st2)
  | .cons (.fnExpr ps body) .nil, st =>
    let st1 := pushChange st "Transformed it to test with page fixture"
    match rewriteExprList body st1 with
    | .error e => .error e
    | .ok (body2, st2) =>
      .ok (.call (.id "test")
        (.cons (.fnExpr (if ps.isEmpty then [pagePat] else ps) body2) .nil), st2)
  | .cons e .nil, st =>
    let st1 := pushChange st "Transformed it to test with page fixture"
    match rewriteExpr e st1 with
    | .error er => .error er
    | .ok (e2, st2) => .ok (.call (.id "test") (.cons e2 .nil), st2)
  | .cons e rest, st =>
    let st1 := pushChange st "Transformed it to test with page fixture"
    match rewriteExpr e st1 with
    | .error er => .error er
    | .ok (e2, st2) =>
      match rewriteArgsInjectLast rest st2 with
      | .error er => .error er
      | .ok (rest2, st3) => .ok (.call (.id "test") (.cons e2 rest2), st3)

/-- The hook rule (migration.js, lines 140–155), applied to the call's
argument list: callee swap to `test.<target>`, change-log entry, and the
zero-parameter page injection into the *first* argument. -/
def rewriteHookArgs (name target : String) : ExprList → MigSt → Except String (Expr × MigSt)
  | .nil, st =>
    .ok (.call (.member (.id "test") target) .nil,
      pushChange st ("Transformed " ++ name ++ " to test." ++ target))
  | .cons (.arrow ps body) rest, st =>
    let st1 := pushChange st ("Transformed " ++ name ++ " to test." ++ target)
    match rewriteExprList body st1 with
    | .error e => .error e
    | .ok (body2, st2) =>
      match rewriteExprList rest st2 with
      | .error e => .error e
      | .ok (rest2, st3) =>
        .ok (.call (.member (.id "test") target)
          (.cons (.arrow (if ps.isEmpty then [pagePat] else ps) body2) rest2), st3)
  | .cons (.fnExpr ps body) rest, st =>
    let st1 := pushChange st ("Transformed " ++ name ++ " to test." ++ target)
    match rewriteExprList body st1 with
    | .error e => .error e
    | .ok (body2, st2) =>
      match rewriteExprList rest st2 with
      | .error e => .error e
      | .ok (rest2, st3) =>
        .ok (.call (.member (.id "test") target)
          (.cons (.fnExpr (if ps.isEmpty then [pagePat] else ps) body2) rest2), st3)
  | .cons cb rest, st =>
    let st1 := pushChange st ("Transformed " ++ name ++ " to test." ++ target)
    match rewriteExpr cb st1 with
    | .error e => .error e
    | .ok (cb2, st2) =>
      match rewriteExprList rest st2 with
      | .error e => .error e
      | .ok (rest2, st3) =>
        .ok (.call (.member (.id "test") target) (.cons cb2 rest2), st3)

def rewriteExprList : ExprList → MigSt → Except String (ExprList × MigSt)
  | .nil, st => .ok (.nil, st)
  | .cons e es, st =>
    match rewriteExpr e st with
    | .error er => .error er
    | .ok (e2, st2) =>
      match rewriteExprList es st2 with
      | .error er => .error er
      | .ok (es2, st3) => .ok (.cons e2 es2, st3)

def rewritePropList : PropList → MigSt → Except String (PropList × MigSt)
  | .nil, st => .ok (.nil, st)
  | .cons k v ps, st =>
    match rewriteExpr v st with
    | .error er => .error er
    | .ok (v2, st2) =>
      match rewritePropList ps st2 with
      | .error er => .error er
      | .ok (ps2, st3) => .ok (.cons k v2 ps2, st3)

/-- Rewrite an argument list whose **last** element receives the
zero-parameter page-fixture injection (`callbackIndex = arguments.length - 1`,
migration.js lines 121–129), all elements being traversed as children. -/
def rewriteArgsInjectLast : ExprList → MigSt → Except String (ExprList × MigSt)
  | .nil, st => .ok (.nil, st)
  | .cons (.arrow ps body) .nil, st =>
    match rewriteExprList body st with
    | .error e => .error e
    | .ok (body2, st2) =>
      .ok (.cons (.arrow (if ps.isEmpty then [pagePat] else ps) body2) .nil, st2)
  | .cons (.fnExpr ps body) .nil, st =>
    match rewriteExprList body st with
    | .error e => .error e
    | .ok (body2, st2) =>
      .ok (.cons (.fnExpr (if ps.isEmpty then [pagePat] else ps) body2) .nil, st2)
  | .cons e .nil, st =>
    match rewriteExpr e st with
    | .error er => .error er
    | .ok (e2, st2) => .ok (.cons e2 .nil, st2)
  | .cons e es, st =>
    match rewriteExpr e st with
    | .error er => .error er
    | .ok (e2, st2) =>
      match rewriteArgsInjectLast es st2 with
      | .error er => .error er
      | .ok (es2, st3) => .ok (.cons e2 es2, st3)

end

/-! ## Statement-level rules and the whole pipeline -/

/-- The chai-require test of the `VariableDeclaration` visitor
(migration.js, lines 57–61): the initializer is a `require` call whose first
argument is a string literal equal to `'chai'` or containing `'chai'`
(equivalently: containing it). -/
def isChaiRequire (d : VarDecl) : Bool :=
  match d.init with
  | some (.call (.id "require") (.cons (.str v) _)) => strIncludes v "chai"
  | _ => false

/-- The `forEach`/`splice` loop of the `VariableDeclaration` visitor
(lines 55–79): each matching declarator is removed in place and an import is
inserted before the statement.  `Array.prototype.forEach` advances its index
over the *mutated* array, so the element immediately following a removed
declarator is skipped (not examined) — the standard in-place-splice skip.
Returns the surviving declarators and the number of removals. -/
def chaiSplice : List VarDecl → Bool → List VarDecl × Nat
  | [], _ => ([], 0)
  | d :: rest, skip =>
    if skip then
      let r := chaiSplice rest false
      (d :: r.1, r.2)
    else if isChaiRequire d then
      let r := chaiSplice rest true
      (r.1, r.2 + 1)
    else
      let r := chaiSplice rest false
      (d :: r.1, r.2)

def rewriteVarInit (d : VarDecl) (st : MigSt) : Except String (VarDecl × MigSt) :=
  match d.init with
  | none => .ok (d, st)
  | some e =>
    match rewriteExpr e st with
    | .error er => .error er
    | .ok (e2, st2) => .ok ({ d with init := some e2 }, st2)

def rewriteVarDecls : List VarDecl → MigSt → Except String (List VarDecl × MigSt)
  | [], st => .ok ([], st)
  | d :: rest, st =>
    match rewriteVarInit d st with
    | .error er => .error er
    | .ok (d2, st2) =>
      match rewriteVarDecls rest st2 with
      | .error er => .error er
      | .ok (rest2, st3) => .ok (d2 :: rest2, st3)

/-- One statement of the traversal.  A statement rewrites to a list of
statements because the require rule inserts an import before the declaration
and may remove the declaration entirely.

The visitor runs before the children are traversed, so the change-log entries
of the require rule precede those of the surviving initializers; the removed
initializers are `require` calls, on which the expression rewrite is the
identity with no log entries, so splicing before rewriting the survivors is
observationally the order of the source. -/
def rewriteStmt : Stmt → MigSt → Except String (List Stmt × MigSt)
  | .importD specs source, st =>
    -- chai import → playwright import (lines 41–52)
    if strIncludes source "chai" then
      .ok ([pwImportStmt],
        { pushChange st "Replaced chai import with @playwright/test" with hasPwImport := true })
    else .ok ([.importD specs source], st)
  | .varD decls, st =>
    let spliced := chaiSplice decls false
    let st1 : MigSt :=
      { st with
        changes := st.changes ++
          List.replicate spliced.2 "Replaced chai require with @playwright/test import"
        hasPwImport := st.hasPwImport || decide (0 < spliced.2) }
    (match rewriteVarDecls spliced.1 st1 with
     | .error er => .error er
     | .ok (decls2, st2) =>
       -- `path.remove()` fires when a splice emptied the declaration list
       .ok ((List.replicate spliced.2 pwImportStmt) ++
         (if decls2.isEmpty && decide (0 < spliced.2) then [] else [.varD decls2]), st2))
  | .exprS e, st =>
    match rewriteExpr e st with
    | .error er => .error er
    | .ok (e2, st2) => .ok ([.exprS e2], st2)

def rewriteStmtList : List Stmt → MigSt → Except String (List Stmt × MigSt)
  | [], st => .ok ([], st)
  | s :: rest, st =>
    match rewriteStmt s st with
    | .error er => .error er
    | .ok (ss, st2) =>
      match rewriteStmtList rest st2 with
      | .error er => .error er
      | .ok (rest2, st3) => .ok (ss ++ rest2, st3)

/-- The traversal plus the final import unshift (migration.js,
lines 39–207): rewrite every statement starting from the empty state, then,
if no playwright import was introduced, unshift one and log it. -/
def migrateProgram (prog : Program) : Except String (Program × MigSt) :=
  match rewriteStmtList prog { changes := [], tags := [], hasPwImport := false } with
  | .error er => .error er
  | .ok (body, st) =>
    if st.hasPwImport then .ok (body, st)
    else .ok (pwImportStmt :: body, pushChange st "Added @playwright/test import")

/-- TypeScript post-step 1 (lines 210–222): add a `Page` specifier to every
`@playwright/test` import that lacks one. -/
def tsAddPageImport (prog : Program) : Program :=
  prog.map fun s =>
    match s with
    | .importD specs "@playwright/test" =>
      if specs.any (fun sp =>
          (match sp with
           | .named l _ => l
           | .defaultSpec l => l
           | .starSpec l => l) = "Page") then s
      else .importD (specs ++ [.named "Page" "Page"]) "@playwright/test"
    | s => s

/-- TypeScript post-step 2 (lines 230–236):
`code.replace(/\(\{\s*page\s*\}\)/g, '({ page }: { page: Page })')`. -/
def tsAnnotateGo : Nat → List Char → List Char
  | 0, l => l
  | _ + 1, [] => []
  | fuel + 1, c :: rest =>
    if c = '(' then
      match rest with
      | '{' :: r1 =>
        (match dropPre "page".data (r1.dropWhile isSpaceChar) with
         | some r3 =>
           (match r3.dropWhile isSpaceChar with
            | '}' :: ')' :: tail =>
              "(\x7b page \x7d: \x7b page: Page \x7d)".data ++ tsAnnotateGo fuel tail
            | _ => c :: tsAnnotateGo fuel rest)
         | none => c :: tsAnnotateGo fuel rest)
      | _ => c :: tsAnnotateGo fuel rest
    else c :: tsAnnotateGo fuel rest

def tsAnnotate (code : String) : String := String.mk (tsAnnotateGo code.data.length code.data)

structure MigrationResult where
  code : String
  notes : List String
  changes : List String
  tags : List String
deriving DecidableEq

/-- `generateMigrationNotes` (migration.js, lines 249–268). -/
def generateMigrationNotes (changes : List String) (isTypeScript : Bool) : List String :=
  ["Migration completed with the following transformations:", ""] ++
    (changes.enum.map fun p => toString (p.1 + 1) ++ ". " ++ p.2) ++
    ["", "Manual review recommended for:",
     "- Custom assertions that may need adjustment",
     "- Complex selectors that could use better Playwright locators",
     "- Async/await patterns",
     "- Explicit waits (Playwright auto-waits)"] ++
    (if isTypeScript then ["- TypeScript type definitions", "- Generic type parameters if needed"]
     else [])

/-- `performAstMigration` (migration.js, lines 22–244).  The external Babel
parser (`parseCode`, with error recovery) and generator are parameters: the
repository calls them but does not define them.  A parse failure propagates;
a target-only verdict short-circuits with the input returned verbatim. -/
def performAstMigration (parse : String → Except String Program) (gen : Program → String)
    (testContent : String) (isTypeScript : Bool) : Except String MigrationResult :=
  match parse testContent with
  | .error e => .error e
  | .ok ast =>
    if (detectFramework ast).isPlaywright then
      .ok { code := testContent, notes := ["File is already using Playwright syntax"],
            changes := [], tags := [] }
    else
      match migrateProgram ast with
      | .error e => .error e
      | .ok (ast1, st) =>
        let ast2 := if isTypeScript then tsAddPageImport ast1 else ast1
        let changes1 :=
          if isTypeScript then st.changes ++ ["Added Page type import for TypeScript"]
          else st.changes
        let output := gen ast2
        let finalCode := if isTypeScript then tsAnnotate output else output
        let changes2 :=
          if isTypeScript then changes1 ++ ["Added TypeScript type annotations"] else changes1
        .ok { code := finalCode, notes := generateMigrationNotes changes2 isTypeScript,
              changes := changes2, tags := st.tags }

/-! ## Page-object synthesizer (`src/src/transformers/pom.js`) -/

/-- A locator-factory argument recorded by `extractPageInfo`: a string
literal (recorded as `selector`) or an object expression (recorded as
`options`; only its presence is observable downstream, where
`locator.selector` is then `undefined`). -/
inductive LocatorArg where
  | strArg (s : String)
  | objArg
deriving DecidableEq

structure LocatorInfo where
  method : String
  arg : LocatorArg
deriving DecidableEq

/-- `extractPageInfo`'s result (pom.js, lines 15–79).  Assertion records
carry only source locations, so they are modelled by their count. -/
structure PageInfo where
  urls : List String
  locators : List LocatorInfo
  actions : List String
  assertions : Nat
deriving DecidableEq

/-- The fixed action vocabulary (pom.js, line 62). -/
def actionMethods : List String :=
  ["click", "fill", "type", "check", "uncheck", "selectOption", "hover", "focus"]

mutual
/-- The `CallExpression` visitor of `extractPageInfo`: on each call node, in
source order, record `goto` URLs, `page.locator`/`page.getBy*` factory
calls, action-method names and `expect` call sites; then descend. -/
def pageInfoExpr : Expr → PageInfo → PageInfo
  | .str _, acc => acc
  | .num _, acc => acc
  | .id _, acc => acc
  | .member o _, acc => pageInfoExpr o acc
  | .arrow _ b, acc => pageInfoExprList b acc
  | .fnExpr _ b, acc => pageInfoExprList b acc
  | .object ps, acc => pageInfoPropList ps acc
  | .array es, acc => pageInfoExprList es acc
  | .call c args, acc =>
    let acc1 :=
      match c, args with
      | .member _ "goto", .cons (.str u) _ => { acc with urls := acc.urls ++ [u] }
      | _, _ => acc
    let acc2 :=
      match c, args with
      | .member (.id "page") m, .cons (.str s) _ =>
        if m = "locator" || "getBy".data.isPrefixOf m.data then
          { acc1 with locators := acc1.locators ++ [{ method := m, arg := .strArg s }] }
        else acc1
      | .member (.id "page") m, .cons (.object _) _ =>
        if m = "locator" || "getBy".data.isPrefixOf m.data then
          { acc1 with locators := acc1.locators ++ [{ method := m, arg := .objArg }] }
        else acc1
      | _, _ => acc1
    let acc3 :=
      match c with
      | .member _ m =>
        if actionMethods.contains m then { acc2 with actions := acc2.actions ++ [m] } else acc2
      | _ => acc2
    let acc4 :=
      match c with
      | .id "expect" => { acc3 with assertions := acc3.assertions + 1 }
      | _ => acc3
    pageInfoExprList args (pageInfoExpr c acc4)
def pageInfoExprList : ExprList → PageInfo → PageInfo
  | .nil, acc => acc
  | .cons e es, acc => pageInfoExprList es (pageInfoExpr e acc)
def pageInfoPropList : PropList → PageInfo → PageInfo
  | .nil, acc => acc
  | .cons _ v ps, acc => pageInfoPropList ps (pageInfoExpr v acc)
end

def pageInfoStmt (s : Stmt) (acc : PageInfo) : PageInfo :=
  match s with
  | .importD _ _ => acc
  | .varD decls =>
    decls.foldl (fun a d => match d.init with | some e => pageInfoExpr e a | none => a) acc
  | .exprS e => pageInfoExpr e acc

/-- `extractPageInfo` on an already-parsed tree (the source re-parses the
text with the external parser first). -/
def extractPageInfo (prog : Program) : PageInfo :=
  prog.foldl (fun a s => pageInfoStmt s a) { urls := [], locators := [], actions := [], assertions := 0 }

/-! ### Field naming (`generateLocatorName` / `toCamelCase`,
pom.js, lines 124–164) -/

def isSepChar (c : Char) : Bool := c = '-' || c = '_' || isSpaceChar c

/-- `str.replace(/[-_\s]+(.)?/g, (_, c) => c ? c.toUpperCase() : '')`: every
maximal separator run is removed and the following character (if any)
upper-cased.  (A separator run is never followed by a line terminator —
those are separators themselves — so the optional `(.)` always captures the
following character when one exists.) -/
def camelScanGo : Nat → List Char → List Char
  | 0, l => l
  | _ + 1, [] => []
  | fuel + 1, c :: rest =>
    if isSepChar c then
      match rest.dropWhile isSepChar with
      | [] => []
      | d :: tail => d.toUpper :: camelScanGo fuel tail
    else c :: camelScanGo fuel rest

/-- `.replace(/^./, c => c.toLowerCase())`. -/
def lowerFirst : List Char → List Char
  | [] => []
  | c :: r => c.toLower :: r

def toCamelCase (str : String) : String :=
  String.mk (lowerFirst (camelScanGo str.data.length str.data))

/-- Characters ending the capture of `/data-test-id=['"]?([^'">\s]+)/`. -/
def stopTestIdCap (c : Char) : Bool := c = '\'' || c = '"' || c = '>' || isSpaceChar c

/-- `/data-test-id=['"]?([^'">\s]+)/` at one position.  The optional quote is
consumed greedily; backtracking to the no-quote alternative cannot succeed
because the capture class excludes quotes. -/
def testIdNameAt (l : List Char) : Option (List Char) :=
  match dropPre "data-test-id=".data l with
  | none => none
  | some r =>
    match r with
    | [] => none
    | q :: r2 =>
      if isQuote q then
        let run := r2.takeWhile fun c => !stopTestIdCap c
        if run.isEmpty then none else some run
      else
        let run := r.takeWhile fun c => !stopTestIdCap c
        if run.isEmpty then none else some run

def testIdNameScan : List Char → Option (List Char)
  | [] => none
  | l@(_ :: rest) =>
    match testIdNameAt l with
    | some cap => some cap
    | none => testIdNameScan rest

/-- `/aria-label=['"]([^'"]+)/` at one position (quote required, no closing
delimiter required). -/
def labelNameAt (l : List Char) : Option (List Char) :=
  match dropPre "aria-label=".data l with
  | none => none
  | some r =>
    match r with
    | [] => none
    | q :: r2 =>
      if isQuote q then
        let run := r2.takeWhile fun c => !isQuote c
        if run.isEmpty then none else some run
      else none

def labelNameScan : List Char → Option (List Char)
  | [] => none
  | l@(_ :: rest) =>
    match labelNameAt l with
    | some cap => some cap
    | none => labelNameScan rest

/-- `/^#([\w-]+)/` (anchored). -/
def idAnchored (l : List Char) : Option (List Char) :=
  match l with
  | '#' :: rest =>
    let run := rest.takeWhile fun c => isWordChar c || c = '-'
    if run.isEmpty then none else some run
  | _ => none

/-- `/^\.([\w-]+)/` (anchored). -/
def classAnchored (l : List Char) : Option (List Char) :=
  match l with
  | '.' :: rest =>
    let run := rest.takeWhile fun c => isWordChar c || c = '-'
    if run.isEmpty then none else some run
  | _ => none

/-- `generateLocatorName` (pom.js, lines 124–155): when the locator carries a
string selector, try data-test-id value, then id selector, then aria-label
(with `Element` suffix), then class selector, else `element<index+1>`.  An
object-argument locator (no `selector` string) goes straight to the
positional name, as does the falsy empty-string selector (on which all four
patterns fail anyway). -/
def generateLocatorName (loc : LocatorInfo) (index : Nat) : String :=
  match loc.arg with
  | .strArg selector =>
    (match testIdNameScan selector.data with
     | some cap => toCamelCase (String.mk cap)
     | none =>
       match idAnchored selector.data with
       | some cap => toCamelCase (String.mk cap)
       | none =>
         match labelNameScan selector.data with
         | some cap => toCamelCase (String.mk cap) ++ "Element"
         | none =>
           match classAnchored selector.data with
           | some cap => toCamelCase (String.mk cap)
           | none => "element" ++ toString (index + 1))
  | .objArg => "element" ++ toString (index + 1)

/-! ### Class naming and class generation (pom.js, lines 87–119 and 190–200) -/

/-- `filePath.replace(/.*\//, '')`: the greedy dot-star consumes up to the
last slash (paths here are line-terminator free). -/
def afterLastSlash (l : List Char) : List Char :=
  ((l.reverse.takeWhile fun c => !(c = '/'))).reverse

/-- `.replace(/\.(spec|test)\.(js|ts)$/, '')`. -/
def stripTestSuffix (l : List Char) : List Char :=
  let suffixes := [".spec.js", ".spec.ts", ".test.js", ".test.ts"]
  match suffixes.find? (fun s => s.data.isSuffixOf l) with
  | some s => l.take (l.length - s.length)
  | none => l

/-- `String.prototype.split(' ')` (single-space separator, empty pieces
kept). -/
def splitSpaceGo (acc : List Char) : List Char → List (List Char)
  | [] => [acc.reverse]
  | c :: rest => if c = ' ' then acc.reverse :: splitSpaceGo [] rest else splitSpaceGo (c :: acc) rest

/-- `word.charAt(0).toUpperCase() + word.slice(1)`. -/
def capitalizeWord : List Char → List Char
  | [] => []
  | c :: r => c.toUpper :: r

/-- `generatePageName` (pom.js, lines 190–200). -/
def generatePageName (filePath : String) : String :=
  let base := stripTestSuffix (afterLastSlash filePath.data)
  let spaced := base.map fun c => if c = '-' || c = '_' then ' ' else c
  String.mk (((splitSpaceGo [] spaced).map capitalizeWord).flatten) ++ "Page"

def joinWithNl : List String → String
  | [] => ""
  | [s] => s
  | s :: rest => s ++ "\n" ++ joinWithNl rest

/-- One constructor line of `generatePageObjectClass` (pom.js, lines 88–104):
every branch — the six recognised factory methods and the generic fallback —
emits `this.NAME = page.METHOD('ARG');` with the recorded method name; an
object-argument locator interpolates the undefined `selector` as
`undefined`. -/
def locatorLine (p : Nat × LocatorInfo) : String :=
  let varName := generateLocatorName p.2 p.1
  let sel := match p.2.arg with | .strArg s => s | .objArg => "undefined"
  "    this." ++ varName ++ " = page." ++ p.2.method ++ "('" ++ sel ++ "');"

/-- `generatePageObjectClass` (pom.js, lines 87–119). -/
def generatePageObjectClass (pageName : String) (info : PageInfo) : String :=
  let locatorDefs := joinWithNl (info.locators.enum.map locatorLine)
  let gotoUrl := match info.urls.head? with
    | some u => if u = "" then "/" else u
    | none => "/"
  "export class " ++ pageName ++ " \x7b\n  constructor(page) \x7b\n    this.page = page;\n" ++
    locatorDefs ++ "\n  \x7d\n\n  async goto() \x7b\n    await this.page.goto('" ++ gotoUrl ++
    "');\n  \x7d\n\x7d\n"

structure PageObjectOut where
  className : String
  fileName : String
  content : String
deriving DecidableEq

structure RefactorOut where
  pageObject : PageObjectOut
  pageInfo : PageInfo
deriving DecidableEq

/-- `refactorToPom` (pom.js, lines 172–185) on an already-parsed tree. -/
def refactorToPom (prog : Program) (filePath : String) : RefactorOut :=
  let pageInfo := extractPageInfo prog
  let pageName := generatePageName filePath
  { pageObject :=
      { className := pageName, fileName := pageName ++ ".js"
        content := generatePageObjectClass pageName pageInfo }
    pageInfo := pageInfo }

/-- The source file of concrete scenario D: `login.spec.js`, already in the
target dialect, with one navigation call to `/login` and one locator whose
raw argument carries the test-identification attribute for
`submit-button`. -/
def loginSpecProgram : Program := [
  .exprS (.call (.id "test") (elist [.str "login works",
    .arrow [pagePat] (elist [
      .call (.member (.id "page") "goto") (elist [.str "/login"]),
      .call (.member (.call (.member (.id "page") "locator")
        (elist [.str "[data-test-id='submit-button']"])) "click") .nil])]))]

/-- A program that the classifier reports as target-only. -/
def pwOnlyProgram : Program := [.importD [.named "test" "test"] "@playwright/test"]

/-- First-occurrence deduplication, the specification-side reading of the
insertion-ordered `Set`. -/
def firstDedup : List String → List String
  | [] => []
  | x :: rest => x :: firstDedup (rest.filter fun y => !(y = x))
termination_by l => l.length
decreasing_by
  simp only [List.length_cons]
  exact Nat.lt_succ_of_le (List.length_filter_le _ _)

def isOkB {α : Type} : Except String α → Bool
  | .ok _ => true
  | .error _ => false

/-- The `$`/`$$` rule's only failure condition: when the first argument is a
string literal, the classifier's code fragment must re-parse. -/
def dollarArgSafe : ExprList → Bool
  | .cons (.str sel) _ => (parseExpressionModel (transformSelector sel).code).isSome
  | _ => true

/-- Guard of the one failing rule, per call node. -/
def dollarGuard (c : Expr) (args : ExprList) : Bool :=
  match c with
  | .id name => if name = "$" || name = "$$" then dollarArgSafe args else true
  | _ => true

/-- Guard of the hook rule's raising case: a call whose identifier callee
collides with a truthy inherited `Object.prototype` member enters the hook
rule and makes the `t.identifier` builder throw. -/
def hookGuard (c : Expr) : Bool :=
  match c with
  | .id name => !(objectProtoTruthy name)
  | _ => true

mutual
/-- Every call node, anywhere in the expression, avoids the two raising
rules: a `$`/`$$` call with a string-literal selector argument has a
re-parsable classifier fragment, and no identifier callee collides with an
inherited `Object.prototype` name. -/
def exprSafe : Expr → Bool
  | .str _ => true
  | .num _ => true
  | .id _ => true
  | .member o _ => exprSafe o
  | .arrow _ b => exprListSafe b
  | .fnExpr _ b => exprListSafe b
  | .object ps => propListSafe ps
  | .array es => exprListSafe es
  | .call c args => dollarGuard c args && hookGuard c && exprSafe c && exprListSafe args
def exprListSafe : ExprList → Bool
  | .nil => true
  | .cons e es => exprSafe e && exprListSafe es
def propListSafe : PropList → Bool
  | .nil => true
  | .cons _ v ps => exprSafe v && propListSafe ps
end

/-- Local well-formedness of mark tokens: every occurrence of the marker is
immediately followed by a word character. -/
def marksOkM (m : Char) : List Char → Bool
  | [] => true
  | [c] => !(c = m)
  | c :: d :: rest => (!(c = m) || isWordChar d) && marksOkM m (d :: rest)

/-- Well-formedness of bracket tokens: every `[` opens a token `[RUN]` with a
nonempty tag-character run, and the rest of the text (after the token)
is again well-formed. -/
def bracketOkGo : Nat → List Char → Bool
  | 0, l => l.isEmpty
  | _ + 1, [] => true
  | fuel + 1, c :: rest =>
    if c = '[' then
      match rest.dropWhile isTagChar with
      | ']' :: tail => !(rest.takeWhile isTagChar).isEmpty && bracketOkGo fuel tail
      | _ => false
    else bracketOkGo fuel rest

def bracketOk (l : List Char) : Bool := bracketOkGo l.length l

/-! ## Helper lemmas for the registration table -/

theorem getProp_setProp_ne (t : JsTable) (k name : String) (v : JsValue) (h : ¬(k = name)) :
    getProp (setProp t k v) name = getProp t name := by
  induction t with
  | nil => simp [setProp, getProp, h]
  | cons kv rest ih =>
    by_cases hk : kv.1 = k
    · simp only [setProp, if_pos hk, getProp, if_neg h, if_neg (hk ▸ h)]
    · simp only [setProp, if_neg hk, getProp]
      by_cases hn : kv.1 = name
      · simp [hn]
      · simp only [if_neg hn]
        exact ih

theorem getProp_setProp_self (t : JsTable) (k : String) (v : JsValue) :
    getProp (setProp t k v) k = some v := by
  induction t with
  | nil => simp [setProp, getProp]
  | cons kv rest ih =>
    by_cases hk : kv.1 = k
    · simp [setProp, hk, getProp]
    · simp only [setProp, if_neg hk, getProp, if_neg hk]
      exact ih

theorem registerCustom_keeps_truthy (cmds : JsTable) (table : JsTable) (name : String)
    (v : JsValue) (hpresent : getProp table name = some v) (htruthy : truthy (some v) = true) :
    getProp (registerCustomCommands cmds table) name = some v := by
  induction cmds generalizing table with
  | nil => exact hpresent
  | cons kv rest ih =>
    rw [registerCustomCommands] at *
    simp only [List.foldl_cons]
    by_cases hk : kv.1 = name
    · rw [hk]
      rw [if_pos (by rw [hpresent]; exact htruthy)]
      exact ih table hpresent
    · by_cases hg : truthy (getProp table kv.1) = true
      · rw [if_pos hg]; exact ih table hpresent
      · rw [if_neg hg]
        exact ih _ (by rw [getProp_setProp_ne _ _ _ _ hk]; exact hpresent)

theorem registerCustom_keeps_keys (cmds : JsTable) (table : JsTable) (name : String)
    (v : JsValue) (hpresent : getProp table name = some v) :
    ∃ w, getProp (registerCustomCommands cmds table) name = some w := by
  induction cmds generalizing table v with
  | nil => exact ⟨v, hpresent⟩
  | cons kv rest ih =>
    rw [registerCustomCommands] at *
    simp only [List.foldl_cons]
    by_cases hg : truthy (getProp table kv.1) = true
    · rw [if_pos hg]; exact ih table v hpresent
    · rw [if_neg hg]
      by_cases hk : kv.1 = name
      · subst hk
        refine ih _ kv.2 ?_
        have : getProp (setProp table kv.1 kv.2) kv.1 = some kv.2 := by
          clear hpresent hg
          induction table with
          | nil => simp [setProp, getProp, List.find?]
          | cons kv2 rest2 ih2 =>
            by_cases h2 : kv2.1 = kv.1
            · simp [setProp, h2, getProp, List.find?]
            · simp only [setProp, if_neg h2]
              simp only [getProp, List.find?, decide_eq_true_eq] at ih2 ⊢
              rw [if_neg h2]
              exact ih2
        exact this
      · exact ih _ v (by rw [getProp_setProp_ne _ _ _ _ hk]; exact hpresent)

/-! ## Claim theorems -/

/-- **C4** (counterexample): the registration guard tests JavaScript
truthiness, not key presence.  After registering `{"swipeUp": null}` the
table has an entry for `swipeUp`, yet a second registration for the same
name overwrites it — contradicting "registering a custom mapping for a name
that already has an entry leaves the original entry unchanged". -/
theorem claim_C4_counterexample :
    getProp (registerCustomCommands [("swipeUp", .nullV)] initialJsTable) "swipeUp" =
        some JsValue.nullV ∧
      getProp (registerCustomCommands [("swipeUp", .objV [("method", "swipe")])]
          (registerCustomCommands [("swipeUp", .nullV)] initialJsTable)) "swipeUp" =
        some (JsValue.objV [("method", "swipe")]) :=
  ⟨rfl, rfl⟩

/-- **C4** (amended): for every name whose existing entry is *truthy* — which
includes every static entry and every registered mapping object — a later
registration leaves the entry unchanged; and registration never removes an
existing entry (truthy or not). -/
theorem claim_C4_registration_monotone (cmds table : JsTable) (name : String) (v : JsValue)
    (hpresent : getProp table name = some v) :
    (truthy (some v) = true → getProp (registerCustomCommands cmds table) name = some v) ∧
      ∃ w, getProp (registerCustomCommands cmds table) name = some w :=
  ⟨fun htruthy => registerCustom_keeps_truthy cmds table name v hpresent htruthy,
   registerCustom_keeps_keys cmds table name v hpresent⟩

/-- **C4** (witness): the static `setValue` entry survives an attempt to
re-register `setValue`. -/
theorem claim_C4_witness :
    getProp (registerCustomCommands [("setValue", .objV [("method", "boom")])] initialJsTable)
        "setValue" =
      some (mappingToJs { method := "fill", description := "Clears and fills input" }) :=
  (claim_C4_registration_monotone [("setValue", .objV [("method", "boom")])] initialJsTable
      "setValue" (mappingToJs { method := "fill", description := "Clears and fills input" })
      rfl).1 rfl

/-- **C5**: migrating the legacy case
`it("should login [SMOKE] [P1]", () => {})` produces
`test("should login", { tag: ["@smoke", "@p1"] }, ({ page }) => {})` —
the tags are stripped from the name, lowercased, prefixed with `@` and
carried as the structured second argument — plus the unshifted
`@playwright/test` import. -/
theorem claim_C5_tag_scenario :
    migrateProgram [.exprS (.call (.id "it")
        (elist [.str "should login [SMOKE] [P1]", .arrow [] .nil]))] =
      .ok ([pwImportStmt,
        .exprS (.call (.id "test") (elist [.str "should login",
          .object (.cons "tag" (.array (elist [.str "@smoke", .str "@p1"])) .nil),
          .arrow [pagePat] .nil]))],
        { changes := ["Migrated tags [smoke, p1] to Playwright tag annotation",
            "Transformed it to test with page fixture",
            "Added @playwright/test import"],
          tags := ["smoke", "p1"], hasPwImport := false }) := rfl

/-- **C6** (code/spec divergence): `.setValue(...)` is rewritten to
`.fill(...)`, but `.waitForDisplayed()` is rewritten to `.waitFor()` with its
argument list unchanged — the mapping's option literal
`{ state: "visible" }` (second conjunct) is never inserted into the call. -/
theorem claim_C6_wait_options_missing :
    migrateProgram [.exprS (.call (.member (.id "el") "setValue") (elist [.str "x"])),
        .exprS (.call (.member (.id "el2") "waitForDisplayed") .nil)] =
      .ok ([pwImportStmt,
        .exprS (.call (.member (.id "el") "fill") (elist [.str "x"])),
        .exprS (.call (.member (.id "el2") "waitFor") .nil)],
        { changes := ["Transformed .setValue() to .fill()",
            "Transformed .waitForDisplayed() to .waitFor()",
            "Added @playwright/test import"],
          tags := [], hasPwImport := false }) ∧
      lookupMapping "waitForDisplayed" =
        some { method := "waitFor", options := some "\x7b state: \"visible\" \x7d",
               description := "Waits for visibility" } :=
  ⟨rfl, rfl⟩

/-- **C7** (counterexample): unqualified `beforeAll` and `afterAll` calls —
two of the six recognised hook kinds — are *not* remapped by the rewrite
engine: the call survives with its bare identifier callee and its
zero-parameter callback untouched, refuting "all six recognized hook kinds
are remapped". -/
theorem claim_C7_counterexample :
    migrateProgram [.exprS (.call (.id "beforeAll") (elist [.arrow [] .nil]))] =
      .ok ([pwImportStmt, .exprS (.call (.id "beforeAll") (elist [.arrow [] .nil]))],
        { changes := ["Added @playwright/test import"], tags := [], hasPwImport := false }) ∧
    migrateProgram [.exprS (.call (.id "afterAll") (elist [.arrow [] .nil]))] =
      .ok ([pwImportStmt, .exprS (.call (.id "afterAll") (elist [.arrow [] .nil]))],
        { changes := ["Added @playwright/test import"], tags := [], hasPwImport := false }) :=
  ⟨rfl, rfl⟩

/-- **C7** (amended): of the six recognised hook kinds, exactly the four in
the rewrite engine's hook map are remapped — `before`/`after` are promoted
to the suite-scoped `test.beforeAll`/`test.afterAll` and
`beforeEach`/`afterEach` keep their names namespaced under `test` — with the
page-handle parameter injected into zero-parameter callbacks; unqualified
`beforeAll`/`afterAll` calls are left unchanged (see the counterexample). -/
theorem claim_C7_hooks_remapped (name target : String)
    (h : (name, target) ∈ [("before", "beforeAll"), ("after", "afterAll"),
      ("beforeEach", "beforeEach"), ("afterEach", "afterEach")]) :
    migrateProgram [.exprS (.call (.id name) (elist [.arrow [] .nil]))] =
      .ok ([pwImportStmt,
        .exprS (.call (.member (.id "test") target) (elist [.arrow [pagePat] .nil]))],
        { changes := ["Transformed " ++ name ++ " to test." ++ target,
            "Added @playwright/test import"],
          tags := [], hasPwImport := false }) := by
  simp only [List.mem_cons, List.not_mem_nil, or_false, Prod.mk.injEq] at h
  rcases h with ⟨rfl, rfl⟩ | ⟨rfl, rfl⟩ | ⟨rfl, rfl⟩ | ⟨rfl, rfl⟩ <;> rfl

/-- **C7** (witness): the `before` hook at a concrete call. -/
theorem claim_C7_witness :
    migrateProgram [.exprS (.call (.id "before") (elist [.arrow [] .nil]))] =
      .ok ([pwImportStmt,
        .exprS (.call (.member (.id "test") "beforeAll") (elist [.arrow [pagePat] .nil]))],
        { changes := ["Transformed before to test.beforeAll",
            "Added @playwright/test import"],
          tags := [], hasPwImport := false }) :=
  claim_C7_hooks_remapped "before" "beforeAll" (by simp)

/-- **C8**: synthesizing a page object from `login.spec.js` containing one
navigation call to `/login` and one test-id locator for `submit-button`
yields class name `LoginPage`, a navigation method targeting `/login`, and
exactly one locator field, named `submitButton`. -/
theorem claim_C8_pom_scenario :
    refactorToPom loginSpecProgram "login.spec.js" =
      { pageObject :=
          { className := "LoginPage", fileName := "LoginPage.js"
            content := "export class LoginPage \x7b\n  constructor(page) \x7b\n    this.page = page;\n    this.submitButton = page.locator('[data-test-id='submit-button']');\n  \x7d\n\n  async goto() \x7b\n    await this.page.goto('/login');\n  \x7d\n\x7d\n" }
        pageInfo :=
          { urls := ["/login"]
            locators := [{ method := "locator", arg := .strArg "[data-test-id='submit-button']" }]
            actions := ["click"], assertions := 0 } } ∧
    generateLocatorName
        { method := "locator", arg := .strArg "[data-test-id='submit-button']" } 0 =
      "submitButton" :=
  ⟨rfl, rfl⟩

/-- **C2**: `transformSelector` applies its six cases in the fixed priority
order — test-identification attribute, aria-label, role, placeholder,
button/link tag, css fallback — with the first match winning (each conjunct
states that when all earlier patterns fail and the given one matches, that
case's result is returned, whatever the later patterns would say); in
particular `"[data-test-id='submit-button']"` classifies as `testId` with a
locator expression referencing `submit-button`. -/
theorem claim_C2_selector_priority :
    (∀ s v, attrCapture "[data-test-id=".data s.data = some v →
      transformSelector s =
        { code := "page.getByTestId('" ++ String.mk v ++ "')", type := "testId",
          original := s }) ∧
    (∀ s v, attrCapture "[data-test-id=".data s.data = none →
      attrCapture "[aria-label=".data s.data = some v →
      transformSelector s =
        { code := "page.getByLabel('" ++ String.mk v ++ "')", type := "label",
          original := s }) ∧
    (∀ s v, attrCapture "[data-test-id=".data s.data = none →
      attrCapture "[aria-label=".data s.data = none →
      attrCapture "[role=".data s.data = some v →
      transformSelector s =
        { code := "page.getByRole('" ++ String.mk v ++ "')", type := "role",
          original := s }) ∧
    (∀ s v, attrCapture "[data-test-id=".data s.data = none →
      attrCapture "[aria-label=".data s.data = none →
      attrCapture "[role=".data s.data = none →
      attrCapture "[placeholder=".data s.data = some v →
      transformSelector s =
        { code := "page.getByPlaceholder('" ++ String.mk v ++ "')", type := "placeholder",
          original := s }) ∧
    (∀ s, attrCapture "[data-test-id=".data s.data = none →
      attrCapture "[aria-label=".data s.data = none →
      attrCapture "[role=".data s.data = none →
      attrCapture "[placeholder=".data s.data = none →
      isButtonLink s.data = true →
      transformSelector s =
        { code := "page.getByRole('" ++
            (if "button".data.isPrefixOf s.data then "button" else "link") ++ "')",
          type := "role", original := s,
          note := some "Consider adding \x7b name: \"...\" \x7d for specificity" }) ∧
    (∀ s, attrCapture "[data-test-id=".data s.data = none →
      attrCapture "[aria-label=".data s.data = none →
      attrCapture "[role=".data s.data = none →
      attrCapture "[placeholder=".data s.data = none →
      isButtonLink s.data = false →
      transformSelector s =
        { code := "page.locator('" ++ s ++ "')", type := "css", original := s,
          suggestion := some "Consider using data-test-id for more reliable selectors" }) ∧
    transformSelector "[data-test-id='submit-button']" =
      { code := "page.getByTestId('submit-button')", type := "testId",
        original := "[data-test-id='submit-button']" } := by
  refine ⟨?_, ?_, ?_, ?_, ?_, ?_, rfl⟩
  · intro s v h1
    simp [transformSelector, h1]
  · intro s v h1 h2
    simp [transformSelector, h1, h2]
  · intro s v h1 h2 h3
    simp [transformSelector, h1, h2, h3]
  · intro s v h1 h2 h3 h4
    simp [transformSelector, h1, h2, h3, h4]
  · intro s h1 h2 h3 h4 h5
    simp [transformSelector, h1, h2, h3, h4, h5]
  · intro s h1 h2 h3 h4 h5
    simp [transformSelector, h1, h2, h3, h4, h5]

/-- **C2** (witness): a selector matching both the test-id and the
aria-label patterns is classified by the earlier case. -/
theorem claim_C2_witness :
    transformSelector "[data-test-id='a'][aria-label='b']" =
      { code := "page.getByTestId('a')", type := "testId",
        original := "[data-test-id='a'][aria-label='b']" } :=
  claim_C2_selector_priority.1 "[data-test-id='a'][aria-label='b']" "a".data rfl

/-- **C1**: when the framework classifier reports target-only
(`isPlaywright`), `performAstMigration` returns the input text unchanged
with the single "already migrated" note, an empty change log and no tags
(first conjunct); consequently, for every input whose first migration
produces target-only code, migrating that output again returns it unchanged
— `migrate(migrate(x).code).code = migrate(x).code` (second conjunct).
The external parser and generator are arbitrary parameters. -/
theorem claim_C1_idempotence (parse : String → Except String Program) (gen : Program → String)
    (isTS : Bool) :
    (∀ x ast, parse x = .ok ast → (detectFramework ast).isPlaywright = true →
      performAstMigration parse gen x isTS =
        .ok { code := x, notes := ["File is already using Playwright syntax"],
              changes := [], tags := [] }) ∧
    (∀ x r ast2, performAstMigration parse gen x isTS = .ok r →
      parse r.code = .ok ast2 → (detectFramework ast2).isPlaywright = true →
      ∃ r2, performAstMigration parse gen r.code isTS = .ok r2 ∧ r2.code = r.code) := by
  have short : ∀ x ast, parse x = .ok ast → (detectFramework ast).isPlaywright = true →
      performAstMigration parse gen x isTS =
        .ok { code := x, notes := ["File is already using Playwright syntax"],
              changes := [], tags := [] } := by
    intro x ast hp hpw
    rw [performAstMigration, hp]
    simp [hpw]
  exact ⟨short, fun x r ast2 _hr hp2 hpw2 =>
    ⟨{ code := r.code, notes := ["File is already using Playwright syntax"],
       changes := [], tags := [] }, short r.code ast2 hp2 hpw2, rfl⟩⟩

/-- **C1** (witness): with a parser returning a target-only tree, migration
returns the input unchanged with the single note, and a second migration of
the returned code returns it unchanged. -/
theorem claim_C1_witness :
    performAstMigration (fun _ => .ok pwOnlyProgram) (fun _ => "") "input text" false =
      .ok { code := "input text", notes := ["File is already using Playwright syntax"],
            changes := [], tags := [] } :=
  (claim_C1_idempotence (fun _ => .ok pwOnlyProgram) (fun _ => "") false).1
    "input text" pwOnlyProgram rfl rfl

/-! ## Helper lemmas for tag extraction order (C10) -/

theorem firstDedup_cons (x : String) (l : List String) :
    firstDedup (x :: l) = x :: firstDedup (l.filter fun y => !(y = x)) := by
  rw [firstDedup.eq_def]

theorem dedupFold_eq (l : List String) : ∀ acc : List String,
    l.foldl (fun acc x => if x ∈ acc then acc else acc ++ [x]) acc =
      acc ++ firstDedup (l.filter fun y => !decide (y ∈ acc)) := by
  induction l with
  | nil => intro acc; simp [firstDedup]
  | cons x rest ih =>
    intro acc
    rw [List.foldl_cons]
    by_cases hx : x ∈ acc
    · rw [if_pos hx, ih acc, List.filter_cons]
      rw [if_neg (by simp [hx])]
    · rw [if_neg hx, ih (acc ++ [x]), List.filter_cons]
      rw [if_pos (by simp [hx])]
      rw [firstDedup_cons]
      have hfilter :
          rest.filter (fun y => !decide (y ∈ acc ++ [x])) =
            (rest.filter fun y => !decide (y ∈ acc)).filter fun y => !(y = x) := by
        rw [List.filter_filter]
        apply List.filter_congr
        intro y _
        by_cases h1 : y = x
        · simp [h1]
        · by_cases h2 : y ∈ acc <;> simp [h1, h2]
      rw [hfilter, List.append_assoc, List.singleton_append]

/-- **C10**: `extractTagsFromString` returns its deduplicated lowercase
tokens in pattern-major order — all bracketed captures (in textual order),
then all at-prefixed captures, then all hash-prefixed captures, with
first-occurrence deduplication across the concatenation (first conjunct);
in particular `"@beta [ALPHA]"` yields `["alpha", "beta"]`, not
`["beta", "alpha"]`, and a token already produced by an earlier pattern is
never repeated (`"#beta @alpha [ALPHA]"` yields `["alpha", "beta"]`). -/
theorem claim_C10_tag_order :
    (∀ s : String, extractTagsFromString s =
      firstDedup ((bracketScan s.data ++ markScan '@' isWordChar s.data ++
        markScan '#' isWordChar s.data).map fun t => String.mk (lowerTok t))) ∧
    extractTagsFromString "@beta [ALPHA]" = ["alpha", "beta"] ∧
    extractTagsFromString "#beta @alpha [ALPHA]" = ["alpha", "beta"] := by
  refine ⟨fun s => ?_, by decide, by decide⟩
  rw [extractTagsFromString, dedupFold_eq]
  simp

/-! ## C9: failure characterization of the rewrite pipeline -/

theorem exFalsoOk {α : Type} {x : Except String α} {e : String}
    (he : x = Except.error e) (hx : isOkB x = true) : False := by
  rw [he] at hx; simp [isOkB] at hx

theorem safeConsE {e : Expr} {es : ExprList} (h : exprListSafe (.cons e es) = true) :
    exprSafe e = true ∧ exprListSafe es = true := by
  rw [exprListSafe, Bool.and_eq_true] at h; exact h

set_option maxHeartbeats 2000000 in
mutual
theorem rewriteArgsInjectLast_ok : ∀ (es : ExprList) (st : MigSt), exprListSafe es = true →
    isOkB (rewriteArgsInjectLast es st) = true
  | .nil, _, _ => rfl
  | .cons (.arrow ps body) .nil, st, h => by
    have hb : exprListSafe body = true := (safeConsE h).1
    have g := rewriteExprList_ok body st hb
    cases hx : rewriteExprList body st with
    | error er => exact (exFalsoOk hx g).elim
    | ok v =>
      obtain ⟨body2, st2⟩ := v
      simp [rewriteArgsInjectLast, hx, isOkB]
  | .cons (.fnExpr ps body) .nil, st, h => by
    have hb : exprListSafe body = true := (safeConsE h).1
    have g := rewriteExprList_ok body st hb
    cases hx : rewriteExprList body st with
    | error er => exact (exFalsoOk hx g).elim
    | ok v =>
      obtain ⟨body2, st2⟩ := v
      simp [rewriteArgsInjectLast, hx, isOkB]
  | .cons (.str s) .nil, _, _ => rfl
  | .cons (.num n) .nil, _, _ => rfl
  | .cons (.id n) .nil, _, _ => rfl
  | .cons (.member o p) .nil, st, h => by
    have g := rewriteExpr_ok (.member o p) st (safeConsE h).1
    cases hx : rewriteExpr (.member o p) st with
    | error er => exact (exFalsoOk hx g).elim
    | ok v =>
      obtain ⟨e2, st2⟩ := v
      simp [rewriteArgsInjectLast, hx, isOkB]
  | .cons (.object pr) .nil, st, h => by
    have g := rewriteExpr_ok (.object pr) st (safeConsE h).1
    cases hx : rewriteExpr (.object pr) st with
    | error er => exact (exFalsoOk hx g).elim
    | ok v =>
      obtain ⟨e2, st2⟩ := v
      simp [rewriteArgsInjectLast, hx, isOkB]
  | .cons (.array ar) .nil, st, h => by
    have g := rewriteExpr_ok (.array ar) st (safeConsE h).1
    cases hx : rewriteExpr (.array ar) st with
    | error er => exact (exFalsoOk hx g).elim
    | ok v =>
      obtain ⟨e2, st2⟩ := v
      simp [rewriteArgsInjectLast, hx, isOkB]
  | .cons (.call c a) .nil, st, h => by
    have g := rewriteExpr_ok (.call c a) st (safeConsE h).1
    cases hx : rewriteExpr (.call c a) st with
    | error er => exact (exFalsoOk hx g).elim
    | ok v =>
      obtain ⟨e2, st2⟩ := v
      simp [rewriteArgsInjectLast, hx, isOkB]
  | .cons e (.cons e2 es2), st, h => by
    obtain ⟨h1, h2⟩ := safeConsE h
    have g := rewriteExpr_ok e st h1
    cases hx : rewriteExpr e st with
    | error er => exact (exFalsoOk hx g).elim
    | ok v =>
      obtain ⟨e3, st3⟩ := v
      have g2 := rewriteArgsInjectLast_ok (.cons e2 es2) st3 h2
      cases hx2 : rewriteArgsInjectLast (.cons e2 es2) st3 with
      | error er => exact (exFalsoOk hx2 g2).elim
      | ok v2 => simp [rewriteArgsInjectLast, hx, hx2, isOkB]

theorem rewriteArgsOnly_ok : ∀ (c : Expr) (args : ExprList) (st : MigSt),
    exprListSafe args = true → isOkB (rewriteArgsOnly c args st) = true
  | _, .nil, _, _ => rfl
  | c, .cons e rest, st, h => by
    obtain ⟨h1, h2⟩ := safeConsE h
    have g := rewriteExpr_ok e st h1
    cases hx : rewriteExpr e st with
    | error er => exact (exFalsoOk hx g).elim
    | ok v =>
      obtain ⟨e2, st2⟩ := v
      have g2 := rewriteExprList_ok rest st2 h2
      cases hx2 : rewriteExprList rest st2 with
      | error er => exact (exFalsoOk hx2 g2).elim
      | ok v2 => simp [rewriteArgsOnly, hx, hx2, isOkB]

theorem rewriteHookArgs_ok : ∀ (name target : String) (args : ExprList) (st : MigSt),
    exprListSafe args = true → isOkB (rewriteHookArgs name target args st) = true
  | _, _, .nil, _, _ => rfl
  | name, target, .cons (.arrow ps body) rest, st, h => by
    obtain ⟨h1, h2⟩ := safeConsE h
    have g := rewriteExprList_ok body
      (pushChange st ("Transformed " ++ name ++ " to test." ++ target)) h1
    cases hx : rewriteExprList body
        (pushChange st ("Transformed " ++ name ++ " to test." ++ target)) with
    | error er => exact (exFalsoOk hx g).elim
    | ok v =>
      obtain ⟨body2, st2⟩ := v
      have g2 := rewriteExprList_ok rest st2 h2
      cases hx2 : rewriteExprList rest st2 with
      | error er => exact (exFalsoOk hx2 g2).elim
      | ok v2 => simp [rewriteHookArgs, hx, hx2, isOkB]
  | name, target, .cons (.fnExpr ps body) rest, st, h => by
    obtain ⟨h1, h2⟩ := safeConsE h
    have g := rewriteExprList_ok body
      (pushChange st ("Transformed " ++ name ++ " to test." ++ target)) h1
    cases hx : rewriteExprList body
        (pushChange st ("Transformed " ++ name ++ " to test." ++ target)) with
    | error er => exact (exFalsoOk hx g).elim
    | ok v =>
      obtain ⟨body2, st2⟩ := v
      have g2 := rewriteExprList_ok rest st2 h2
      cases hx2 : rewriteExprList rest st2 with
      | error er => exact (exFalsoOk hx2 g2).elim
      | ok v2 => simp [rewriteHookArgs, hx, hx2, isOkB]
  | name, target, .cons (.str s) rest, st, h => by
    obtain ⟨h1, h2⟩ := safeConsE h
    have g := rewriteExpr_ok (.str s)
      (pushChange st ("Transformed " ++ name ++ " to test." ++ target)) h1
    cases hx : rewriteExpr (.str s)
        (pushChange st ("Transformed " ++ name ++ " to test." ++ target)) with
    | error er => exact (exFalsoOk hx g).elim
    | ok v =>
      obtain ⟨cb2, st2⟩ := v
      have g2 := rewriteExprList_ok rest st2 h2
      cases hx2 : rewriteExprList rest st2 with
      | error er => exact (exFalsoOk hx2 g2).elim
      | ok v2 => simp [rewriteHookArgs, hx, hx2, isOkB]
  | name, target, .cons (.num n) rest, st, h => by
    obtain ⟨h1, h2⟩ := safeConsE h
    have g := rewriteExpr_ok (.num n)
      (pushChange st ("Transformed " ++ name ++ " to test." ++ target)) h1
    cases hx : rewriteExpr (.num n)
        (pushChange st ("Transformed " ++ name ++ " to test." ++ target)) with
    | error er => exact (exFalsoOk hx g).elim
    | ok v =>
      obtain ⟨cb2, st2⟩ := v
      have g2 := rewriteExprList_ok rest st2 h2
      cases hx2 : rewriteExprList rest st2 with
      | error er => exact (exFalsoOk hx2 g2).elim
      | ok v2 => simp [rewriteHookArgs, hx, hx2, isOkB]
  | name, target, .cons (.id n) rest, st, h => by
    obtain ⟨h1, h2⟩ := safeConsE h
    have g := rewriteExpr_ok (.id n)
      (pushChange st ("Transformed " ++ name ++ " to test." ++ target)) h1
    cases hx : rewriteExpr (.id n)
        (pushChange st ("Transformed " ++ name ++ " to test." ++ target)) with
    | error er => exact (exFalsoOk hx g).elim
    | ok v =>
      obtain ⟨cb2, st2⟩ := v
      have g2 := rewriteExprList_ok rest st2 h2
      cases hx2 : rewriteExprList rest st2 with
      | error er => exact (exFalsoOk hx2 g2).elim
      | ok v2 => simp [rewriteHookArgs, hx, hx2, isOkB]
  | name, target, .cons (.member o p) rest, st, h => by
    obtain ⟨h1, h2⟩ := safeConsE h
    have g := rewriteExpr_ok (.member o p)
      (pushChange st ("Transformed " ++ name ++ " to test." ++ target)) h1
    cases hx : rewriteExpr (.member o p)
        (pushChange st ("Transformed " ++ name ++ " to test." ++ target)) with
    | error er => exact (exFalsoOk hx g).elim
    | ok v =>
      obtain ⟨cb2, st2⟩ := v
      have g2 := rewriteExprList_ok rest st2 h2
      cases hx2 : rewriteExprList rest st2 with
      | error er => exact (exFalsoOk hx2 g2).elim
      | ok v2 => simp [rewriteHookArgs, hx, hx2, isOkB]
  | name, target, .cons (.object pr) rest, st, h => by
    obtain ⟨h1, h2⟩ := safeConsE h
    have g := rewriteExpr_ok (.object pr)
      (pushChange st ("Transformed " ++ name ++ " to test." ++ target)) h1
    cases hx : rewriteExpr (.object pr)
        (pushChange st ("Transformed " ++ name ++ " to test." ++ target)) with
    | error er => exact (exFalsoOk hx g).elim
    | ok v =>
      obtain ⟨cb2, st2⟩ := v
      have g2 := rewriteExprList_ok rest st2 h2
      cases hx2 : rewriteExprList rest st2 with
      | error er => exact (exFalsoOk hx2 g2).elim
      | ok v2 => simp [rewriteHookArgs, hx, hx2, isOkB]
  | name, target, .cons (.array ar) rest, st, h => by
    obtain ⟨h1, h2⟩ := safeConsE h
    have g := rewriteExpr_ok (.array ar)
      (pushChange st ("Transformed " ++ name ++ " to test." ++ target)) h1
    cases hx : rewriteExpr (.array ar)
        (pushChange st ("Transformed " ++ name ++ " to test." ++ target)) with
    | error er => exact (exFalsoOk hx g).elim
    | ok v =>
      obtain ⟨cb2, st2⟩ := v
      have g2 := rewriteExprList_ok rest st2 h2
      cases hx2 : rewriteExprList rest st2 with
      | error er => exact (exFalsoOk hx2 g2).elim
      | ok v2 => simp [rewriteHookArgs, hx, hx2, isOkB]
  | name, target, .cons (.call c a) rest, st, h => by
    obtain ⟨h1, h2⟩ := safeConsE h
    have g := rewriteExpr_ok (.call c a)
      (pushChange st ("Transformed " ++ name ++ " to test." ++ target)) h1
    cases hx : rewriteExpr (.call c a)
        (pushChange st ("Transformed " ++ name ++ " to test." ++ target)) with
    | error er => exact (exFalsoOk hx g).elim
    | ok v =>
      obtain ⟨cb2, st2⟩ := v
      have g2 := rewriteExprList_ok rest st2 h2
      cases hx2 : rewriteExprList rest st2 with
      | error er => exact (exFalsoOk hx2 g2).elim
      | ok v2 => simp [rewriteHookArgs, hx, hx2, isOkB]

theorem rewriteDollarArgs_ok : ∀ (name : String) (args : ExprList) (st : MigSt),
    dollarArgSafe args = true → exprListSafe args = true →
    isOkB (rewriteDollarArgs name args st) = true
  | _, .nil, _, _, _ => rfl
  | name, .cons (.str sel) rest, st, hsafe, _ => by
    rw [dollarArgSafe] at hsafe
    cases hp : parseExpressionModel (transformSelector sel).code with
    | none => rw [hp] at hsafe; simp at hsafe
    | some frag => simp [rewriteDollarArgs, hp, isOkB]
  | name, .cons (.num n) rest, st, _, h => by
    obtain ⟨h1, h2⟩ := safeConsE h
    have g := rewriteExpr_ok (.num n) st h1
    cases hx : rewriteExpr (.num n) st with
    | error er => exact (exFalsoOk hx g).elim
    | ok v =>
      obtain ⟨e2, st2⟩ := v
      have g2 := rewriteExprList_ok rest st2 h2
      cases hx2 : rewriteExprList rest st2 with
      | error er => exact (exFalsoOk hx2 g2).elim
      | ok v2 => simp [rewriteDollarArgs, hx, hx2, isOkB]
  | name, .cons (.id n) rest, st, _, h => by
    obtain ⟨h1, h2⟩ := safeConsE h
    have g := rewriteExpr_ok (.id n) st h1
    cases hx : rewriteExpr (.id n) st with
    | error er => exact (exFalsoOk hx g).elim
    | ok v =>
      obtain ⟨e2, st2⟩ := v
      have g2 := rewriteExprList_ok rest st2 h2
      cases hx2 : rewriteExprList rest st2 with
      | error er => exact (exFalsoOk hx2 g2).elim
      | ok v2 => simp [rewriteDollarArgs, hx, hx2, isOkB]
  | name, .cons (.member o p) rest, st, _, h => by
    obtain ⟨h1, h2⟩ := safeConsE h
    have g := rewriteExpr_ok (.member o p) st h1
    cases hx : rewriteExpr (.member o p) st with
    | error er => exact (exFalsoOk hx g).elim
    | ok v =>
      obtain ⟨e2, st2⟩ := v
      have g2 := rewriteExprList_ok rest st2 h2
      cases hx2 : rewriteExprList rest st2 with
      | error er => exact (exFalsoOk hx2 g2).elim
      | ok v2 => simp [rewriteDollarArgs, hx, hx2, isOkB]
  | name, .cons (.arrow ps body) rest, st, _, h => by
    obtain ⟨h1, h2⟩ := safeConsE h
    have g := rewriteExpr_ok (.arrow ps body) st h1
    cases hx : rewriteExpr (.arrow ps body) st with
    | error er => exact (exFalsoOk hx g).elim
    | ok v =>
      obtain ⟨e2, st2⟩ := v
      have g2 := rewriteExprList_ok rest st2 h2
      cases hx2 : rewriteExprList rest st2 with
      | error er => exact (exFalsoOk hx2 g2).elim
      | ok v2 => simp [rewriteDollarArgs, hx, hx2, isOkB]
  | name, .cons (.fnExpr ps body) rest, st, _, h => by
    obtain ⟨h1, h2⟩ := safeConsE h
    have g := rewriteExpr_ok (.fnExpr ps body) st h1
    cases hx : rewriteExpr (.fnExpr ps body) st with
    | error er => exact (exFalsoOk hx g).elim
    | ok v =>
      obtain ⟨e2, st2⟩ := v
      have g2 := rewriteExprList_ok rest st2 h2
      cases hx2 : rewriteExprList rest st2 with
      | error er => exact (exFalsoOk hx2 g2).elim
      | ok v2 => simp [rewriteDollarArgs, hx, hx2, isOkB]
  | name, .cons (.object pr) rest, st, _, h => by
    obtain ⟨h1, h2⟩ := safeConsE h
    have g := rewriteExpr_ok (.object pr) st h1
    cases hx : rewriteExpr (.object pr) st with
    | error er => exact (exFalsoOk hx g).elim
    | ok v =>
      obtain ⟨e2, st2⟩ := v
      have g2 := rewriteExprList_ok rest st2 h2
      cases hx2 : rewriteExprList rest st2 with
      | error er => exact (exFalsoOk hx2 g2).elim
      | ok v2 => simp [rewriteDollarArgs, hx, hx2, isOkB]
  | name, .cons (.array ar) rest, st, _, h => by
    obtain ⟨h1, h2⟩ := safeConsE h
    have g := rewriteExpr_ok (.array ar) st h1
    cases hx : rewriteExpr (.array ar) st with
    | error er => exact (exFalsoOk hx g).elim
    | ok v =>
      obtain ⟨e2, st2⟩ := v
      have g2 := rewriteExprList_ok rest st2 h2
      cases hx2 : rewriteExprList rest st2 with
      | error er => exact (exFalsoOk hx2 g2).elim
      | ok v2 => simp [rewriteDollarArgs, hx, hx2, isOkB]
  | name, .cons (.call c a) rest, st, _, h => by
    obtain ⟨h1, h2⟩ := safeConsE h
    have g := rewriteExpr_ok (.call c a) st h1
    cases hx : rewriteExpr (.call c a) st with
    | error er => exact (exFalsoOk hx g).elim
    | ok v =>
      obtain ⟨e2, st2⟩ := v
      have g2 := rewriteExprList_ok rest st2 h2
      cases hx2 : rewriteExprList rest st2 with
      | error er => exact (exFalsoOk hx2 g2).elim
      | ok v2 => simp [rewriteDollarArgs, hx, hx2, isOkB]

theorem rewriteItArgs_ok : ∀ (args : ExprList) (st : MigSt), exprListSafe args = true →
    isOkB (rewriteItArgs args st) = true
  | .nil, _, _ => rfl
  | .cons (.str t) .nil, st, h => by
    by_cases hemp : (extractTagsFromString t).isEmpty = true
    · simp [rewriteItArgs, hemp, isOkB]
    · simp [rewriteItArgs, hemp, isOkB]
  | .cons (.str t) (.cons (.arrow ps body) tail), st, h => by
    obtain ⟨h1, h2⟩ := safeConsE h
    by_cases hemp : (extractTagsFromString t).isEmpty = true
    · have g := rewriteArgsInjectLast_ok (.cons (.arrow ps body) tail)
        (pushChange st "Transformed it to test with page fixture") h2
      cases hx : rewriteArgsInjectLast (.cons (.arrow ps body) tail)
          (pushChange st "Transformed it to test with page fixture") with
      | error er => exact (exFalsoOk hx g).elim
      | ok v =>
        obtain ⟨rest2, st2⟩ := v
        simp [rewriteItArgs, hemp, hx, isOkB]
    · have hb : exprListSafe body = true := (safeConsE h2).1
      simp [rewriteItArgs, hemp]
      split
      · rename_i heq
        exact (exFalsoOk heq (rewriteExprList_ok body _ hb)).elim
      · rfl
  | .cons (.str t) (.cons (.fnExpr ps body) tail), st, h => by
    obtain ⟨h1, h2⟩ := safeConsE h
    by_cases hemp : (extractTagsFromString t).isEmpty = true
    · have g := rewriteArgsInjectLast_ok (.cons (.fnExpr ps body) tail)
        (pushChange st "Transformed it to test with page fixture") h2
      cases hx : rewriteArgsInjectLast (.cons (.fnExpr ps body) tail)
          (pushChange st "Transformed it to test with page fixture") with
      | error er => exact (exFalsoOk hx g).elim
      | ok v =>
        obtain ⟨rest2, st2⟩ := v
        simp [rewriteItArgs, hemp, hx, isOkB]
    · have hb : exprListSafe body = true := (safeConsE h2).1
      simp [rewriteItArgs, hemp]
      split
      · rename_i heq
        exact (exFalsoOk heq (rewriteExprList_ok body _ hb)).elim
      · rfl
  | .cons (.str t) (.cons (.str s2) tail), st, h => by
    obtain ⟨h1, h2⟩ := safeConsE h
    by_cases hemp : (extractTagsFromString t).isEmpty = true
    · have g := rewriteArgsInjectLast_ok (.cons (.str s2) tail)
        (pushChange st "Transformed it to test with page fixture") h2
      cases hx : rewriteArgsInjectLast (.cons (.str s2) tail)
          (pushChange st "Transformed it to test with page fixture") with
      | error er => exact (exFalsoOk hx g).elim
      | ok v =>
        obtain ⟨rest2, st2⟩ := v
        simp [rewriteItArgs, hemp, hx, isOkB]
    · have hcb : exprSafe (.str s2) = true := (safeConsE h2).1
      simp [rewriteItArgs, hemp]
      split
      · rename_i heq
        exact (exFalsoOk heq (rewriteExpr_ok (.str s2) _ hcb)).elim
      · rfl
  | .cons (.str t) (.cons (.num n) tail), st, h => by
    obtain ⟨h1, h2⟩ := safeConsE h
    by_cases hemp : (extractTagsFromString t).isEmpty = true
    · have g := rewriteArgsInjectLast_ok (.cons (.num n) tail)
        (pushChange st "Transformed it to test with page fixture") h2
      cases hx : rewriteArgsInjectLast (.cons (.num n) tail)
          (pushChange st "Transformed it to test with page fixture") with
      | error er => exact (exFalsoOk hx g).elim
      | ok v =>
        obtain ⟨rest2, st2⟩ := v
        simp [rewriteItArgs, hemp, hx, isOkB]
    · have hcb : exprSafe (.num n) = true := (safeConsE h2).1
      simp [rewriteItArgs, hemp]
      split
      · rename_i heq
        exact (exFalsoOk heq (rewriteExpr_ok (.num n) _ hcb)).elim
      · rfl
  | .cons (.str t) (.cons (.id n) tail), st, h => by
    obtain ⟨h1, h2⟩ := safeConsE h
    by_cases hemp : (extractTagsFromString t).isEmpty = true
    · have g := rewriteArgsInjectLast_ok (.cons (.id n) tail)
        (pushChange st "Transformed it to test with page fixture") h2
      cases hx : rewriteArgsInjectLast (.cons (.id n) tail)
          (pushChange st "Transformed it to test with page fixture") with
      | error er => exact (exFalsoOk hx g).elim
      | ok v =>
        obtain ⟨rest2, st2⟩ := v
        simp [rewriteItArgs, hemp, hx, isOkB]
    · have hcb : exprSafe (.id n) = true := (safeConsE h2).1
      simp [rewriteItArgs, hemp]
      split
      · rename_i heq
        exact (exFalsoOk heq (rewriteExpr_ok (.id n) _ hcb)).elim
      · rfl
  | .cons (.str t) (.cons (.member o p) tail), st, h => by
    obtain ⟨h1, h2⟩ := safeConsE h
    by_cases hemp : (extractTagsFromString t).isEmpty = true
    · have g := rewriteArgsInjectLast_ok (.cons (.member o p) tail)
        (pushChange st "Transformed it to test with page fixture") h2
      cases hx : rewriteArgsInjectLast (.cons (.member o p) tail)
          (pushChange st "Transformed it to test with page fixture") with
      | error er => exact (exFalsoOk hx g).elim
      | ok v =>
        obtain ⟨rest2, st2⟩ := v
        simp [rewriteItArgs, hemp, hx, isOkB]
    · have hcb : exprSafe (.member o p) = true := (safeConsE h2).1
      simp [rewriteItArgs, hemp]
      split
      · rename_i heq
        exact (exFalsoOk heq (rewriteExpr_ok (.member o p) _ hcb)).elim
      · rfl
  | .cons (.str t) (.cons (.object pr) tail), st, h => by
    obtain ⟨h1, h2⟩ := safeConsE h
    by_cases hemp : (extractTagsFromString t).isEmpty = true
    · have g := rewriteArgsInjectLast_ok (.cons (.object pr) tail)
        (pushChange st "Transformed it to test with page fixture") h2
      cases hx : rewriteArgsInjectLast (.cons (.object pr) tail)
          (pushChange st "Transformed it to test with page fixture") with
      | error er => exact (exFalsoOk hx g).elim
      | ok v =>
        obtain ⟨rest2, st2⟩ := v
        simp [rewriteItArgs, hemp, hx, isOkB]
    · have hcb : exprSafe (.object pr) = true := (safeConsE h2).1
      simp [rewriteItArgs, hemp]
      split
      · rename_i heq
        exact (exFalsoOk heq (rewriteExpr_ok (.object pr) _ hcb)).elim
      · rfl
  | .cons (.str t) (.cons (.array ar) tail), st, h => by
    obtain ⟨h1, h2⟩ := safeConsE h
    by_cases hemp : (extractTagsFromString t).isEmpty = true
    · have g := rewriteArgsInjectLast_ok (.cons (.array ar) tail)
        (pushChange st "Transformed it to test with page fixture") h2
      cases hx : rewriteArgsInjectLast (.cons (.array ar) tail)
          (pushChange st "Transformed it to test with page fixture") with
      | error er => exact (exFalsoOk hx g).elim
      | ok v =>
        obtain ⟨rest2, st2⟩ := v
        simp [rewriteItArgs, hemp, hx, isOkB]
    · have hcb : exprSafe (.array ar) = true := (safeConsE h2).1
      simp [rewriteItArgs, hemp]
      split
      · rename_i heq
        exact (exFalsoOk heq (rewriteExpr_ok (.array ar) _ hcb)).elim
      · rfl
  | .cons (.str t) (.cons (.call c a) tail), st, h => by
    obtain ⟨h1, h2⟩ := safeConsE h
    by_cases hemp : (extractTagsFromString t).isEmpty = true
    · have g := rewriteArgsInjectLast_ok (.cons (.call c a) tail)
        (pushChange st "Transformed it to test with page fixture") h2
      cases hx : rewriteArgsInjectLast (.cons (.call c a) tail)
          (pushChange st "Transformed it to test with page fixture") with
      | error er => exact (exFalsoOk hx g).elim
      | ok v =>
        obtain ⟨rest2, st2⟩ := v
        simp [rewriteItArgs, hemp, hx, isOkB]
    · have hcb : exprSafe (.call c a) = true := (safeConsE h2).1
      simp [rewriteItArgs, hemp]
      split
      · rename_i heq
        exact (exFalsoOk heq (rewriteExpr_ok (.call c a) _ hcb)).elim
      · rfl
  | .cons (.arrow ps body) .nil, st, h => by
    have hb : exprListSafe body = true := (safeConsE h).1
    have g := rewriteExprList_ok body
      (pushChange st "Transformed it to test with page fixture") hb
    cases hx : rewriteExprList body
        (pushChange st "Transformed it to test with page fixture") with
    | error er => exact (exFalsoOk hx g).elim
    | ok v =>
      obtain ⟨body2, st2⟩ := v
      simp [rewriteItArgs, hx, isOkB]
  | .cons (.fnExpr ps body) .nil, st, h => by
    have hb : exprListSafe body = true := (safeConsE h).1
    have g := rewriteExprList_ok body
      (pushChange st "Transformed it to test with page fixture") hb
    cases hx : rewriteExprList body
        (pushChange st "Transformed it to test with page fixture") with
    | error er => exact (exFalsoOk hx g).elim
    | ok v =>
      obtain ⟨body2, st2⟩ := v
      simp [rewriteItArgs, hx, isOkB]
  | .cons (.num n) .nil, st, h => by
    have g := rewriteExpr_ok (.num n)
      (pushChange st "Transformed it to test with page fixture") (safeConsE h).1
    cases hx : rewriteExpr (.num n)
        (pushChange st "Transformed it to test with page fixture") with
    | error er => exact (exFalsoOk hx g).elim
    | ok v =>
      obtain ⟨e2, st2⟩ := v
      simp [rewriteItArgs, hx, isOkB]
  | .cons (.id n) .nil, st, h => by
    have g := rewriteExpr_ok (.id n)
      (pushChange st "Transformed it to test with page fixture") (safeConsE h).1
    cases hx : rewriteExpr (.id n)
        (pushChange st "Transformed it to test with page fixture") with
    | error er => exact (exFalsoOk hx g).elim
    | ok v =>
      obtain ⟨e2, st2⟩ := v
      simp [rewriteItArgs, hx, isOkB]
  | .cons (.member o p) .nil, st, h => by
    have g := rewriteExpr_ok (.member o p)
      (pushChange st "Transformed it to test with page fixture") (safeConsE h).1
    cases hx : rewriteExpr (.member o p)
        (pushChange st "Transformed it to test with page fixture") with
    | error er => exact (exFalsoOk hx g).elim
    | ok v =>
      obtain ⟨e2, st2⟩ := v
      simp [rewriteItArgs, hx, isOkB]
  | .cons (.object pr) .nil, st, h => by
    have g := rewriteExpr_ok (.object pr)
      (pushChange st "Transformed it to test with page fixture") (safeConsE h).1
    cases hx : rewriteExpr (.object pr)
        (pushChange st "Transformed it to test with page fixture") with
    | error er => exact (exFalsoOk hx g).elim
    | ok v =>
      obtain ⟨e2, st2⟩ := v
      simp [rewriteItArgs, hx, isOkB]
  | .cons (.array ar) .nil, st, h => by
    have g := rewriteExpr_ok (.array ar)
      (pushChange st "Transformed it to test with page fixture") (safeConsE h).1
    cases hx : rewriteExpr (.array ar)
        (pushChange st "Transformed it to test with page fixture") with
    | error er => exact (exFalsoOk hx g).elim
    | ok v =>
      obtain ⟨e2, st2⟩ := v
      simp [rewriteItArgs, hx, isOkB]
  | .cons (.call c a) .nil, st, h => by
    have g := rewriteExpr_ok (.call c a)
      (pushChange st "Transformed it to test with page fixture") (safeConsE h).1
    cases hx : rewriteExpr (.call c a)
        (pushChange st "Transformed it to test with page fixture") with
    | error er => exact (exFalsoOk hx g).elim
    | ok v =>
      obtain ⟨e2, st2⟩ := v
      simp [rewriteItArgs, hx, isOkB]
  | .cons (.num n) (.cons e2 es2), st, h => by
    obtain ⟨h1, h2⟩ := safeConsE h
    have g := rewriteExpr_ok (.num n)
      (pushChange st "Transformed it to test with page fixture") h1
    cases hx : rewriteExpr (.num n)
        (pushChange st "Transformed it to test with page fixture") with
    | error er => exact (exFalsoOk hx g).elim
    | ok v =>
      obtain ⟨e3, st3⟩ := v
      have g2 := rewriteArgsInjectLast_ok (.cons e2 es2) st3 h2
      cases hx2 : rewriteArgsInjectLast (.cons e2 es2) st3 with
      | error er => exact (exFalsoOk hx2 g2).elim
      | ok v2 => simp [rewriteItArgs, hx, hx2, isOkB]
  | .cons (.id n) (.cons e2 es2), st, h => by
    obtain ⟨h1, h2⟩ := safeConsE h
    have g := rewriteExpr_ok (.id n)
      (pushChange st "Transformed it to test with page fixture") h1
    cases hx : rewriteExpr (.id n)
        (pushChange st "Transformed it to test with page fixture") with
    | error er => exact (exFalsoOk hx g).elim
    | ok v =>
      obtain ⟨e3, st3⟩ := v
      have g2 := rewriteArgsInjectLast_ok (.cons e2 es2) st3 h2
      cases hx2 : rewriteArgsInjectLast (.cons e2 es2) st3 with
      | error er => exact (exFalsoOk hx2 g2).elim
      | ok v2 => simp [rewriteItArgs, hx, hx2, isOkB]
  | .cons (.member o p) (.cons e2 es2), st, h => by
    obtain ⟨h1, h2⟩ := safeConsE h
    have g := rewriteExpr_ok (.member o p)
      (pushChange st "Transformed it to test with page fixture") h1
    cases hx : rewriteExpr (.member o p)
        (pushChange st "Transformed it to test with page fixture") with
    | error er => exact (exFalsoOk hx g).elim
    | ok v =>
      obtain ⟨e3, st3⟩ := v
      have g2 := rewriteArgsInjectLast_ok (.cons e2 es2) st3 h2
      cases hx2 : rewriteArgsInjectLast (.cons e2 es2) st3 with
      | error er => exact (exFalsoOk hx2 g2).elim
      | ok v2 => simp [rewriteItArgs, hx, hx2, isOkB]
  | .cons (.object pr) (.cons e2 es2), st, h => by
    obtain ⟨h1, h2⟩ := safeConsE h
    have g := rewriteExpr_ok (.object pr)
      (pushChange st "Transformed it to test with page fixture") h1
    cases hx : rewriteExpr (.object pr)
        (pushChange st "Transformed it to test with page fixture") with
    | error er => exact (exFalsoOk hx g).elim
    | ok v =>
      obtain ⟨e3, st3⟩ := v
      have g2 := rewriteArgsInjectLast_ok (.cons e2 es2) st3 h2
      cases hx2 : rewriteArgsInjectLast (.cons e2 es2) st3 with
      | error er => exact (exFalsoOk hx2 g2).elim
      | ok v2 => simp [rewriteItArgs, hx, hx2, isOkB]
  | .cons (.array ar) (.cons e2 es2), st, h => by
    obtain ⟨h1, h2⟩ := safeConsE h
    have g := rewriteExpr_ok (.array ar)
      (pushChange st "Transformed it to test with page fixture") h1
    cases hx : rewriteExpr (.array ar)
        (pushChange st "Transformed it to test with page fixture") with
    | error er => exact (exFalsoOk hx g).elim
    | ok v =>
      obtain ⟨e3, st3⟩ := v
      have g2 := rewriteArgsInjectLast_ok (.cons e2 es2) st3 h2
      cases hx2 : rewriteArgsInjectLast (.cons e2 es2) st3 with
      | error er => exact (exFalsoOk hx2 g2).elim
      | ok v2 => simp [rewriteItArgs, hx, hx2, isOkB]
  | .cons (.call c a) (.cons e2 es2), st, h => by
    obtain ⟨h1, h2⟩ := safeConsE h
    have g := rewriteExpr_ok (.call c a)
      (pushChange st "Transformed it to test with page fixture") h1
    cases hx : rewriteExpr (.call c a)
        (pushChange st "Transformed it to test with page fixture") with
    | error er => exact (exFalsoOk hx g).elim
    | ok v =>
      obtain ⟨e3, st3⟩ := v
      have g2 := rewriteArgsInjectLast_ok (.cons e2 es2) st3 h2
      cases hx2 : rewriteArgsInjectLast (.cons e2 es2) st3 with
      | error er => exact (exFalsoOk hx2 g2).elim
      | ok v2 => simp [rewriteItArgs, hx, hx2, isOkB]
  | .cons (.arrow ps body) (.cons e2 es2), st, h => by
    obtain ⟨h1, h2⟩ := safeConsE h
    have g := rewriteExpr_ok (.arrow ps body)
      (pushChange st "Transformed it to test with page fixture") h1
    cases hx : rewriteExpr (.arrow ps body)
        (pushChange st "Transformed it to test with page fixture") with
    | error er => exact (exFalsoOk hx g).elim
    | ok v =>
      obtain ⟨e3, st3⟩ := v
      have g2 := rewriteArgsInjectLast_ok (.cons e2 es2) st3 h2
      cases hx2 : rewriteArgsInjectLast (.cons e2 es2) st3 with
      | error er => exact (exFalsoOk hx2 g2).elim
      | ok v2 => simp [rewriteItArgs, hx, hx2, isOkB]
  | .cons (.fnExpr ps body) (.cons e2 es2), st, h => by
    obtain ⟨h1, h2⟩ := safeConsE h
    have g := rewriteExpr_ok (.fnExpr ps body)
      (pushChange st "Transformed it to test with page fixture") h1
    cases hx : rewriteExpr (.fnExpr ps body)
        (pushChange st "Transformed it to test with page fixture") with
    | error er => exact (exFalsoOk hx g).elim
    | ok v =>
      obtain ⟨e3, st3⟩ := v
      have g2 := rewriteArgsInjectLast_ok (.cons e2 es2) st3 h2
      cases hx2 : rewriteArgsInjectLast (.cons e2 es2) st3 with
      | error er => exact (exFalsoOk hx2 g2).elim
      | ok v2 => simp [rewriteItArgs, hx, hx2, isOkB]

theorem rewriteExpr_ok : ∀ (e : Expr) (st : MigSt), exprSafe e = true →
    isOkB (rewriteExpr e st) = true
  | .str _, _, _ => rfl
  | .num _, _, _ => rfl
  | .id _, _, _ => rfl
  | .member obj prop, st, h => by
    rw [exprSafe] at h
    rw [rewriteExpr]
    have h1 := rewriteExpr_ok obj st h
    cases he : rewriteExpr obj st with
    | error e => rw [he] at h1; simp [isOkB] at h1
    | ok v => simp [isOkB]
  | .arrow ps body, st, h => by
    rw [exprSafe] at h
    rw [rewriteExpr]
    have h1 := rewriteExprList_ok body st h
    cases he : rewriteExprList body st with
    | error e => rw [he] at h1; simp [isOkB] at h1
    | ok v => simp [isOkB]
  | .fnExpr ps body, st, h => by
    rw [exprSafe] at h
    rw [rewriteExpr]
    have h1 := rewriteExprList_ok body st h
    cases he : rewriteExprList body st with
    | error e => rw [he] at h1; simp [isOkB] at h1
    | ok v => simp [isOkB]
  | .object props, st, h => by
    rw [exprSafe] at h
    rw [rewriteExpr]
    have h1 := rewritePropList_ok props st h
    cases he : rewritePropList props st with
    | error e => rw [he] at h1; simp [isOkB] at h1
    | ok v => simp [isOkB]
  | .array es, st, h => by
    rw [exprSafe] at h
    rw [rewriteExpr]
    have h1 := rewriteExprList_ok es st h
    cases he : rewriteExprList es st with
    | error e => rw [he] at h1; simp [isOkB] at h1
    | ok v => simp [isOkB]
  | .call (.id name) args, st, h => by
    rw [exprSafe, Bool.and_eq_true, Bool.and_eq_true, Bool.and_eq_true] at h
    obtain ⟨⟨⟨hguard, hhk⟩, hc⟩, hargs⟩ := h
    by_cases hd : name = "describe"
    · subst hd
      simpa [rewriteExpr, calleeDirect, isOkB] using
        rewriteArgsOnly_ok (.member (.id "test") "describe") args
          (pushChange st "Transformed describe to test.describe") hargs
    · by_cases hi : name = "it"
      · subst hi
        simpa [rewriteExpr, calleeDirect, hd, isOkB] using rewriteItArgs_ok args st hargs
      · cases hh : hookTargetOf name with
        | some target =>
          simpa [rewriteExpr, calleeDirect, hd, hi, hh, isOkB] using
            rewriteHookArgs_ok name target args st hargs
        | none =>
          have hpr : objectProtoTruthy name = false := by
            have h7 : (!(objectProtoTruthy name)) = true := hhk
            simpa using h7
          by_cases hdl : (name = "$" || name = "$$") = true
          · rw [dollarGuard, if_pos hdl] at hguard
            simpa [rewriteExpr, calleeDirect, hd, hi, hh, hpr, hdl, isOkB] using
              rewriteDollarArgs_ok name args st hguard hargs
          · simpa [rewriteExpr, calleeDirect, hd, hi, hh, hpr, hdl, isOkB] using
              rewriteArgsOnly_ok (.id name) args st hargs
  | .call (.member (.id n) prop) args, st, h => by
    rw [exprSafe, Bool.and_eq_true, Bool.and_eq_true, Bool.and_eq_true] at h
    obtain ⟨⟨⟨hguard, hhk⟩, hc⟩, hargs⟩ := h
    simpa [rewriteExpr, calleeDirect, isOkB] using
      rewriteArgsOnly_ok
        (.member (renameMember (.id n) prop st).1 (renameMember (.id n) prop st).2.1)
        args (renameMember (.id n) prop st).2.2 hargs
  | .call (.member (.str s) prop) args, st, h => by
    rw [exprSafe, Bool.and_eq_true, Bool.and_eq_true, Bool.and_eq_true] at h
    obtain ⟨⟨⟨hguard, hhk⟩, hc⟩, hargs⟩ := h
    have g := rewriteExprList_ok args (renameMember (.str s) prop st).2.2 hargs
    cases hx : rewriteExprList args (renameMember (.str s) prop st).2.2 with
    | error er => exact (exFalsoOk hx g).elim
    | ok v =>
      obtain ⟨args2, st2⟩ := v
      simp [rewriteExpr, calleeDirect, hx, isOkB]
  | .call (.member (.num nn) prop) args, st, h => by
    rw [exprSafe, Bool.and_eq_true, Bool.and_eq_true, Bool.and_eq_true] at h
    obtain ⟨⟨⟨hguard, hhk⟩, hc⟩, hargs⟩ := h
    have g := rewriteExprList_ok args (renameMember (.num nn) prop st).2.2 hargs
    cases hx : rewriteExprList args (renameMember (.num nn) prop st).2.2 with
    | error er => exact (exFalsoOk hx g).elim
    | ok v =>
      obtain ⟨args2, st2⟩ := v
      simp [rewriteExpr, calleeDirect, hx, isOkB]
  | .call (.member (.member o2 p2) prop) args, st, h => by
    rw [exprSafe, Bool.and_eq_true, Bool.and_eq_true, Bool.and_eq_true] at h
    obtain ⟨⟨⟨hguard, hhk⟩, hc⟩, hargs⟩ := h
    have hsub : exprSafe o2 = true := hc
    have g := rewriteExpr_ok o2 (renameMember (.member o2 p2) prop st).2.2 hsub
    cases hx : rewriteExpr o2 (renameMember (.member o2 p2) prop st).2.2 with
    | error er => exact (exFalsoOk hx g).elim
    | ok v =>
      obtain ⟨sub2, st2⟩ := v
      have g2 := rewriteExprList_ok args st2 hargs
      cases hx2 : rewriteExprList args st2 with
      | error er => exact (exFalsoOk hx2 g2).elim
      | ok v2 => simp [rewriteExpr, calleeDirect, hx, hx2, isOkB]
  | .call (.member (.arrow ps b) prop) args, st, h => by
    rw [exprSafe, Bool.and_eq_true, Bool.and_eq_true, Bool.and_eq_true] at h
    obtain ⟨⟨⟨hguard, hhk⟩, hc⟩, hargs⟩ := h
    have hsub : exprListSafe b = true := hc
    have g := rewriteExprList_ok b (renameMember (.arrow ps b) prop st).2.2 hsub
    cases hx : rewriteExprList b (renameMember (.arrow ps b) prop st).2.2 with
    | error er => exact (exFalsoOk hx g).elim
    | ok v =>
      obtain ⟨sub2, st2⟩ := v
      have g2 := rewriteExprList_ok args st2 hargs
      cases hx2 : rewriteExprList args st2 with
      | error er => exact (exFalsoOk hx2 g2).elim
      | ok v2 => simp [rewriteExpr, calleeDirect, hx, hx2, isOkB]
  | .call (.member (.fnExpr ps b) prop) args, st, h => by
    rw [exprSafe, Bool.and_eq_true, Bool.and_eq_true, Bool.and_eq_true] at h
    obtain ⟨⟨⟨hguard, hhk⟩, hc⟩, hargs⟩ := h
    have hsub : exprListSafe b = true := hc
    have g := rewriteExprList_ok b (renameMember (.fnExpr ps b) prop st).2.2 hsub
    cases hx : rewriteExprList b (renameMember (.fnExpr ps b) prop st).2.2 with
    | error er => exact (exFalsoOk hx g).elim
    | ok v =>
      obtain ⟨sub2, st2⟩ := v
      have g2 := rewriteExprList_ok args st2 hargs
      cases hx2 : rewriteExprList args st2 with
      | error er => exact (exFalsoOk hx2 g2).elim
      | ok v2 => simp [rewriteExpr, calleeDirect, hx, hx2, isOkB]
  | .call (.member (.object pr) prop) args, st, h => by
    rw [exprSafe, Bool.and_eq_true, Bool.and_eq_true, Bool.and_eq_true] at h
    obtain ⟨⟨⟨hguard, hhk⟩, hc⟩, hargs⟩ := h
    have hsub : propListSafe pr = true := hc
    have g := rewritePropList_ok pr (renameMember (.object pr) prop st).2.2 hsub
    cases hx : rewritePropList pr (renameMember (.object pr) prop st).2.2 with
    | error er => exact (exFalsoOk hx g).elim
    | ok v =>
      obtain ⟨sub2, st2⟩ := v
      have g2 := rewriteExprList_ok args st2 hargs
      cases hx2 : rewriteExprList args st2 with
      | error er => exact (exFalsoOk hx2 g2).elim
      | ok v2 => simp [rewriteExpr, calleeDirect, hx, hx2, isOkB]
  | .call (.member (.array ar) prop) args, st, h => by
    rw [exprSafe, Bool.and_eq_true, Bool.and_eq_true, Bool.and_eq_true] at h
    obtain ⟨⟨⟨hguard, hhk⟩, hc⟩, hargs⟩ := h
    have hsub : exprListSafe ar = true := hc
    have g := rewriteExprList_ok ar (renameMember (.array ar) prop st).2.2 hsub
    cases hx : rewriteExprList ar (renameMember (.array ar) prop st).2.2 with
    | error er => exact (exFalsoOk hx g).elim
    | ok v =>
      obtain ⟨sub2, st2⟩ := v
      have g2 := rewriteExprList_ok args st2 hargs
      cases hx2 : rewriteExprList args st2 with
      | error er => exact (exFalsoOk hx2 g2).elim
      | ok v2 => simp [rewriteExpr, calleeDirect, hx, hx2, isOkB]
  | .call (.member (.call c2 a2) prop) args, st, h => by
    rw [exprSafe, Bool.and_eq_true, Bool.and_eq_true, Bool.and_eq_true] at h
    obtain ⟨⟨⟨hguard, hhk⟩, hc⟩, hargs⟩ := h
    have hobj : exprSafe (.call c2 a2) = true := hc
    have g := rewriteExpr_ok (.call c2 a2) (renameMember (.call c2 a2) prop st).2.2 hobj
    cases hx : rewriteExpr (.call c2 a2) (renameMember (.call c2 a2) prop st).2.2 with
    | error er => exact (exFalsoOk hx g).elim
    | ok v =>
      obtain ⟨obj2, st2⟩ := v
      have g2 := rewriteExprList_ok args st2 hargs
      cases hx2 : rewriteExprList args st2 with
      | error er => exact (exFalsoOk hx2 g2).elim
      | ok v2 => simp [rewriteExpr, calleeDirect, hx, hx2, isOkB]
  | .call (.str s) args, st, h => by
    rw [exprSafe, Bool.and_eq_true, Bool.and_eq_true, Bool.and_eq_true] at h
    obtain ⟨⟨⟨hguard, hhk⟩, hc⟩, hargs⟩ := h
    have g := rewriteExprList_ok args st hargs
    cases hx : rewriteExprList args st with
    | error er => exact (exFalsoOk hx g).elim
    | ok v =>
      obtain ⟨args2, st2⟩ := v
      simp [rewriteExpr, calleeDirect, hx, isOkB]
  | .call (.num nn) args, st, h => by
    rw [exprSafe, Bool.and_eq_true, Bool.and_eq_true, Bool.and_eq_true] at h
    obtain ⟨⟨⟨hguard, hhk⟩, hc⟩, hargs⟩ := h
    have g := rewriteExprList_ok args st hargs
    cases hx : rewriteExprList args st with
    | error er => exact (exFalsoOk hx g).elim
    | ok v =>
      obtain ⟨args2, st2⟩ := v
      simp [rewriteExpr, calleeDirect, hx, isOkB]
  | .call (.arrow ps b) args, st, h => by
    rw [exprSafe, Bool.and_eq_true, Bool.and_eq_true, Bool.and_eq_true] at h
    obtain ⟨⟨⟨hguard, hhk⟩, hc⟩, hargs⟩ := h
    have hsub : exprListSafe b = true := hc
    have g := rewriteExprList_ok b st hsub
    cases hx : rewriteExprList b st with
    | error er => exact (exFalsoOk hx g).elim
    | ok v =>
      obtain ⟨sub2, st2⟩ := v
      have g2 := rewriteExprList_ok args st2 hargs
      cases hx2 : rewriteExprList args st2 with
      | error er => exact (exFalsoOk hx2 g2).elim
      | ok v2 => simp [rewriteExpr, calleeDirect, hx, hx2, isOkB]
  | .call (.fnExpr ps b) args, st, h => by
    rw [exprSafe, Bool.and_eq_true, Bool.and_eq_true, Bool.and_eq_true] at h
    obtain ⟨⟨⟨hguard, hhk⟩, hc⟩, hargs⟩ := h
    have hsub : exprListSafe b = true := hc
    have g := rewriteExprList_ok b st hsub
    cases hx : rewriteExprList b st with
    | error er => exact (exFalsoOk hx g).elim
    | ok v =>
      obtain ⟨sub2, st2⟩ := v
      have g2 := rewriteExprList_ok args st2 hargs
      cases hx2 : rewriteExprList args st2 with
      | error er => exact (exFalsoOk hx2 g2).elim
      | ok v2 => simp [rewriteExpr, calleeDirect, hx, hx2, isOkB]
  | .call (.object pr) args, st, h => by
    rw [exprSafe, Bool.and_eq_true, Bool.and_eq_true, Bool.and_eq_true] at h
    obtain ⟨⟨⟨hguard, hhk⟩, hc⟩, hargs⟩ := h
    have hsub : propListSafe pr = true := hc
    have g := rewritePropList_ok pr st hsub
    cases hx : rewritePropList pr st with
    | error er => exact (exFalsoOk hx g).elim
    | ok v =>
      obtain ⟨sub2, st2⟩ := v
      have g2 := rewriteExprList_ok args st2 hargs
      cases hx2 : rewriteExprList args st2 with
      | error er => exact (exFalsoOk hx2 g2).elim
      | ok v2 => simp [rewriteExpr, calleeDirect, hx, hx2, isOkB]
  | .call (.array ar) args, st, h => by
    rw [exprSafe, Bool.and_eq_true, Bool.and_eq_true, Bool.and_eq_true] at h
    obtain ⟨⟨⟨hguard, hhk⟩, hc⟩, hargs⟩ := h
    have hsub : exprListSafe ar = true := hc
    have g := rewriteExprList_ok ar st hsub
    cases hx : rewriteExprList ar st with
    | error er => exact (exFalsoOk hx g).elim
    | ok v =>
      obtain ⟨sub2, st2⟩ := v
      have g2 := rewriteExprList_ok args st2 hargs
      cases hx2 : rewriteExprList args st2 with
      | error er => exact (exFalsoOk hx2 g2).elim
      | ok v2 => simp [rewriteExpr, calleeDirect, hx, hx2, isOkB]
  | .call (.call c2 a2) args, st, h => by
    rw [exprSafe, Bool.and_eq_true, Bool.and_eq_true, Bool.and_eq_true] at h
    obtain ⟨⟨⟨hguard, hhk⟩, hc⟩, hargs⟩ := h
    have g := rewriteExpr_ok (.call c2 a2) st hc
    cases hx : rewriteExpr (.call c2 a2) st with
    | error er => exact (exFalsoOk hx g).elim
    | ok v =>
      obtain ⟨c2x, st2⟩ := v
      have g2 := rewriteExprList_ok args st2 hargs
      cases hx2 : rewriteExprList args st2 with
      | error er => exact (exFalsoOk hx2 g2).elim
      | ok v2 => simp [rewriteExpr, calleeDirect, hx, hx2, isOkB]

theorem rewriteExprList_ok : ∀ (es : ExprList) (st : MigSt), exprListSafe es = true →
    isOkB (rewriteExprList es st) = true
  | .nil, _, _ => rfl
  | .cons e es, st, h => by
    rw [exprListSafe, Bool.and_eq_true] at h
    obtain ⟨h1, h2⟩ := h
    rw [rewriteExprList]
    have g1 := rewriteExpr_ok e st h1
    cases he : rewriteExpr e st with
    | error er => rw [he] at g1; simp [isOkB] at g1
    | ok v =>
      match v with
      | (e2, st2) =>
        have g2 := rewriteExprList_ok es st2 h2
        cases he2 : rewriteExprList es st2 with
        | error er => rw [he2] at g2; simp [isOkB] at g2
        | ok v2 => simp [isOkB, he2]

theorem rewritePropList_ok : ∀ (ps : PropList) (st : MigSt), propListSafe ps = true →
    isOkB (rewritePropList ps st) = true
  | .nil, _, _ => rfl
  | .cons k v ps, st, h => by
    rw [propListSafe, Bool.and_eq_true] at h
    obtain ⟨h1, h2⟩ := h
    rw [rewritePropList]
    have g1 := rewriteExpr_ok v st h1
    cases he : rewriteExpr v st with
    | error er => rw [he] at g1; simp [isOkB] at g1
    | ok w =>
      match w with
      | (v2, st2) =>
        have g2 := rewritePropList_ok ps st2 h2
        cases he2 : rewritePropList ps st2 with
        | error er => rw [he2] at g2; simp [isOkB] at g2
        | ok w2 => simp [isOkB, he2]
end

theorem markScanGo_none (m : Char) (p : Char → Bool) :
    ∀ (fuel : Nat) (l : List Char), (∀ c ∈ l, c ≠ m) → markScanGo m p fuel l = []
  | 0, _, _ => rfl
  | _ + 1, [], _ => rfl
  | fuel + 1, c :: rest, h => by
    rw [markScanGo, if_neg (h c (List.mem_cons_self c rest))]
    exact markScanGo_none m p fuel rest (fun d hd => h d (List.mem_cons_of_mem c hd))

theorem bracketScanGo_none : ∀ (fuel : Nat) (l : List Char),
    (∀ c ∈ l, c ≠ '[') → bracketScanGo fuel l = []
  | 0, _, _ => rfl
  | _ + 1, [], _ => rfl
  | fuel + 1, c :: rest, h => by
    rw [bracketScanGo, if_neg (h c (List.mem_cons_self c rest))]
    exact bracketScanGo_none fuel rest (fun d hd => h d (List.mem_cons_of_mem c hd))

theorem markScanGo_empty (m : Char) (p : Char → Bool) (fuel : Nat) :
    markScanGo m p fuel [] = [] := by
  cases fuel <;> rfl

theorem bracketScanGo_empty (fuel : Nat) : bracketScanGo fuel [] = [] := by
  cases fuel <;> rfl

theorem markScanGo_tok (m : Char) (p : Char → Bool) (b : List Char)
    (hb : b ≠ []) (hall : ∀ c ∈ b, p c = true) :
    markScanGo m p (b.length + 1) (m :: b) = [b] := by
  rw [markScanGo, if_pos rfl, List.takeWhile_eq_self_iff.mpr hall,
    List.dropWhile_eq_nil_iff.mpr hall,
    if_neg (by simp [List.isEmpty_iff, hb]), markScanGo_empty]

theorem bracketScanGo_tok (b : List Char) (hb : b ≠ [])
    (hall : ∀ c ∈ b, isTagChar c = true) :
    bracketScanGo (b.length + 2) ('[' :: (b ++ [']'])) = [b] := by
  rw [bracketScanGo, if_pos rfl, List.takeWhile_append_of_pos hall,
    List.dropWhile_append_of_pos hall]
  have h1 : List.takeWhile isTagChar [']'] = [] := rfl
  have h2 : List.dropWhile isTagChar [']'] = [']'] := rfl
  rw [h1, h2, List.append_nil]
  simp only []
  rw [if_neg (by simp [List.isEmpty_iff, hb]), bracketScanGo_empty]

theorem isTagChar_ne {c m : Char} (h : isTagChar c = true) (hm : isTagChar m = false) :
    c ≠ m := fun he => by rw [he, hm] at h; exact Bool.noConfusion h

theorem isWordChar_ne {c m : Char} (h : isWordChar c = true) (hm : isWordChar m = false) :
    c ≠ m := fun he => by rw [he, hm] at h; exact Bool.noConfusion h

theorem extract_bracket (b : List Char) (hb : b ≠ [])
    (hall : ∀ c ∈ b, isTagChar c = true) :
    extractTagsFromString (String.mk ('[' :: (b ++ [']']))) = [String.mk (lowerTok b)] := by
  have hlen : ('[' :: (b ++ [']'])).length = b.length + 2 := by simp
  have hmem : ∀ m : Char, m ≠ '[' → m ≠ ']' → isTagChar m = false →
      ∀ c ∈ '[' :: (b ++ [']']), c ≠ m := by
    intro m h1 h2 h3 c hc
    rcases List.mem_cons.mp hc with h | h
    · rw [h]; exact fun he => h1 he.symm
    · rcases List.mem_append.mp h with h4 | h4
      · exact isTagChar_ne (hall c h4) h3
      · simp at h4; rw [h4]; exact fun he => h2 he.symm
  rw [extractTagsFromString]
  rw [show bracketScan ('[' :: (b ++ [']'])) = [b] from by
    rw [bracketScan, hlen]; exact bracketScanGo_tok b hb hall]
  rw [show markScan '@' isWordChar ('[' :: (b ++ [']'])) = [] from
    markScanGo_none '@' isWordChar _ _ (hmem '@' (by decide) (by decide) (by decide))]
  rw [show markScan '#' isWordChar ('[' :: (b ++ [']'])) = [] from
    markScanGo_none '#' isWordChar _ _ (hmem '#' (by decide) (by decide) (by decide))]
  simp

theorem extract_mark (m : Char) (hm2 : m = '@' ∨ m = '#')
    (b : List Char) (hb : b ≠ []) (hall : ∀ c ∈ b, isWordChar c = true) :
    extractTagsFromString (String.mk (m :: b)) = [String.mk (lowerTok b)] := by
  have hlen : (m :: b).length = b.length + 1 := by simp
  have hmem : ∀ x : Char, x ≠ m → isWordChar x = false → ∀ c ∈ m :: b, c ≠ x := by
    intro x h1 h2 c hc
    rcases List.mem_cons.mp hc with h | h
    · rw [h]; exact fun he => h1 he.symm
    · exact isWordChar_ne (hall c h) h2
  have hbr : bracketScan (m :: b) = [] := by
    apply bracketScanGo_none
    intro c hc
    rcases List.mem_cons.mp hc with h | h
    · rw [h]; rcases hm2 with h2 | h2 <;> (rw [h2]; decide)
    · exact isWordChar_ne (hall c h) (by decide)
  rw [extractTagsFromString, hbr]
  rcases hm2 with hat | hha
  · subst hat
    rw [show markScan '@' isWordChar ('@' :: b) = [b] from by
      rw [markScan, hlen]; exact markScanGo_tok '@' isWordChar b hb hall]
    rw [show markScan '#' isWordChar ('@' :: b) = [] from
      markScanGo_none '#' isWordChar _ _ (hmem '#' (by decide) (by decide))]
    simp
  · subst hha
    rw [show markScan '@' isWordChar ('#' :: b) = [] from
      markScanGo_none '@' isWordChar _ _ (hmem '@' (by decide) (by decide))]
    rw [show markScan '#' isWordChar ('#' :: b) = [b] from by
      rw [markScan, hlen]; exact markScanGo_tok '#' isWordChar b hb hall]
    simp

theorem marksOkM_tail {m c : Char} {rest : List Char}
    (h : marksOkM m (c :: rest) = true) : marksOkM m rest = true := by
  cases rest with
  | nil => rfl
  | cons d rest2 =>
    rw [marksOkM, Bool.and_eq_true] at h
    exact h.2

theorem marksOkM_dropWhile (m : Char) (p : Char → Bool) :
    ∀ (l : List Char), marksOkM m l = true → marksOkM m (l.dropWhile p) = true
  | [], h => h
  | c :: rest, h => by
    rw [List.dropWhile_cons]
    by_cases hp : p c = true
    · rw [if_pos hp]
      exact marksOkM_dropWhile m p rest (marksOkM_tail h)
    · rw [if_neg hp]
      exact h

theorem bracketStripGo_subset : ∀ (fuel : Nat) (l : List Char) (c : Char),
    c ∈ bracketStripGo fuel l → c ∈ l
  | 0, l, c, h => h
  | _ + 1, [], c, h => absurd h (List.not_mem_nil c)
  | fuel + 1, d :: rest, c, h => by
    rw [bracketStripGo] at h
    by_cases hd : d = '['
    · rw [if_pos hd] at h
      split at h
      · rename_i tail heq
        dsimp only [] at h
        split at h
        · rcases List.mem_cons.mp h with h1 | h1
          · exact h1 ▸ List.mem_cons_self d rest
          · exact List.mem_cons_of_mem d (bracketStripGo_subset fuel rest c h1)
        · have h2 := bracketStripGo_subset fuel tail c h
          have h3 : c ∈ List.dropWhile isTagChar rest := by
            rw [heq]; exact List.mem_cons_of_mem _ h2
          exact List.mem_cons_of_mem d ((List.dropWhile_sublist isTagChar).mem h3)
      · rcases List.mem_cons.mp h with h1 | h1
        · exact h1 ▸ List.mem_cons_self d rest
        · exact List.mem_cons_of_mem d (bracketStripGo_subset fuel rest c h1)
    · rw [if_neg hd] at h
      rcases List.mem_cons.mp h with h1 | h1
      · exact h1 ▸ List.mem_cons_self d rest
      · exact List.mem_cons_of_mem d (bracketStripGo_subset fuel rest c h1)

theorem markStripGo_subset (m : Char) (p : Char → Bool) : ∀ (fuel : Nat) (l : List Char)
    (c : Char), c ∈ markStripGo m p fuel l → c ∈ l
  | 0, l, c, h => h
  | _ + 1, [], c, h => absurd h (List.not_mem_nil c)
  | fuel + 1, d :: rest, c, h => by
    rw [markStripGo] at h
    by_cases hd : d = m
    · rw [if_pos hd] at h
      split at h
      · rcases List.mem_cons.mp h with h1 | h1
        · exact h1 ▸ List.mem_cons_self d rest
        · exact List.mem_cons_of_mem d (markStripGo_subset m p fuel rest c h1)
      · exact List.mem_cons_of_mem d
          ((List.dropWhile_sublist p).mem (markStripGo_subset m p fuel _ c h))
    · rw [if_neg hd] at h
      rcases List.mem_cons.mp h with h1 | h1
      · exact h1 ▸ List.mem_cons_self d rest
      · exact List.mem_cons_of_mem d (markStripGo_subset m p fuel rest c h1)

theorem bracketStripGo_clean : ∀ (fuel fuel2 : Nat) (l : List Char),
    l.length ≤ fuel → l.length ≤ fuel2 → bracketOkGo fuel2 l = true →
    ∀ c ∈ bracketStripGo fuel l, c ≠ '['
  | fuel, _, [], _, _, _ => by
    intro c hc
    cases fuel with
    | zero => exact absurd hc (List.not_mem_nil c)
    | succ f => exact absurd hc (List.not_mem_nil c)
  | fuel, fuel2, d :: rest, hf, hf2, hok => by
    cases fuel with
    | zero => exact absurd hf (by simp)
    | succ f =>
      cases fuel2 with
      | zero => exact absurd hf2 (by simp)
      | succ f2 =>
        intro c hc
        have hr : rest.length ≤ f := by simp at hf; omega
        have hr2 : rest.length ≤ f2 := by simp at hf2; omega
        rw [bracketStripGo] at hc
        rw [bracketOkGo] at hok
        by_cases hd : d = '['
        · rw [if_pos hd] at hc hok
          split at hok
          · rename_i tail heq
            rw [Bool.and_eq_true] at hok
            obtain ⟨hrun, hok2⟩ := hok
            rw [Bool.not_eq_true'] at hrun
            split at hc
            · rename_i tail2 heq2
              have htt : (']' :: tail2 : List Char) = ']' :: tail := heq2.symm.trans heq
              injection htt with _ htt2
              rw [htt2] at hc
              rw [if_neg (by simp [hrun])] at hc
              have htl : tail.length ≤ f := by
                have h5 := (List.dropWhile_sublist (p := isTagChar) (l := rest)).length_le
                rw [heq] at h5
                simp at h5
                omega
              have htl2 : tail.length ≤ f2 := by
                have h5 := (List.dropWhile_sublist (p := isTagChar) (l := rest)).length_le
                rw [heq] at h5
                simp at h5
                omega
              exact bracketStripGo_clean f f2 tail htl htl2 hok2 c hc
            · rename_i hno
              exact absurd heq (hno tail)
          · simp at hok
        · rw [if_neg hd] at hc hok
          rcases List.mem_cons.mp hc with h1 | h1
          · rw [h1]; exact hd
          · exact bracketStripGo_clean f f2 rest hr hr2 hok c h1

theorem bracketStripGo_marks (m : Char) : ∀ (fuel fuel2 : Nat) (l : List Char),
    l.length ≤ fuel → l.length ≤ fuel2 → bracketOkGo fuel2 l = true →
    marksOkM m l = true → marksOkM m (bracketStripGo fuel l) = true
  | fuel, _, [], _, _, _, _ => by
    cases fuel with
    | zero => rfl
    | succ f => rfl
  | fuel, fuel2, d :: rest, hf, hf2, hok, hmk => by
    cases fuel with
    | zero => exact absurd hf (by simp)
    | succ f =>
      cases fuel2 with
      | zero => exact absurd hf2 (by simp)
      | succ f2 =>
        have hr : rest.length ≤ f := by simp at hf; omega
        have hr2 : rest.length ≤ f2 := by simp at hf2; omega
        rw [bracketStripGo]
        rw [bracketOkGo] at hok
        by_cases hd : d = '['
        · rw [if_pos hd]
          rw [if_pos hd] at hok
          split at hok
          · rename_i tail heq
            rw [Bool.and_eq_true] at hok
            obtain ⟨hrun, hok2⟩ := hok
            rw [Bool.not_eq_true'] at hrun
            dsimp only []
            rw [if_neg (by simp [hrun])]
            have htl : tail.length ≤ f := by
              have h5 := (List.dropWhile_sublist (p := isTagChar) (l := rest)).length_le
              rw [heq] at h5
              simp at h5
              omega
            have htl2 : tail.length ≤ f2 := by
              have h5 := (List.dropWhile_sublist (p := isTagChar) (l := rest)).length_le
              rw [heq] at h5
              simp at h5
              omega
            have hmt : marksOkM m tail = true := by
              have h6 := marksOkM_dropWhile m isTagChar rest (marksOkM_tail hmk)
              rw [heq] at h6
              exact marksOkM_tail h6
            exact bracketStripGo_marks m f f2 tail htl htl2 hok2 hmt
          · simp at hok
        · rw [if_neg hd]
          rw [if_neg hd] at hok
          have hih := bracketStripGo_marks m f f2 rest hr hr2 hok (marksOkM_tail hmk)
          by_cases hdm : d = m
          · cases rest with
            | nil =>
              rw [marksOkM] at hmk
              rw [hdm] at hmk
              simp at hmk
            | cons w rest2 =>
              have hw : isWordChar w = true := by
                rw [marksOkM, Bool.and_eq_true] at hmk
                have hpair := hmk.1
                rw [hdm] at hpair
                simpa using hpair
              have hwne : w ≠ '[' := isWordChar_ne hw (by decide)
              cases f with
              | zero => simp at hr
              | succ f3 =>
                rw [bracketStripGo, if_neg hwne] at hih ⊢
                rw [marksOkM, Bool.and_eq_true]
                exact ⟨by simp [hw], hih⟩
          · cases hX : bracketStripGo f rest with
            | nil => simp [marksOkM, hdm]
            | cons x xs =>
              rw [hX] at hih
              rw [marksOkM, Bool.and_eq_true]
              exact ⟨by simp [hdm], hih⟩

theorem markStripGo_kill (m : Char) (hm : isWordChar m = false) :
    ∀ (fuel : Nat) (l : List Char), l.length ≤ fuel → marksOkM m l = true →
    ∀ c ∈ markStripGo m isWordChar fuel l, c ≠ m
  | fuel, [], _, _ => by
    intro c hc
    cases fuel with
    | zero => exact absurd hc (List.not_mem_nil c)
    | succ f => exact absurd hc (List.not_mem_nil c)
  | fuel, d :: rest, hf, hmk => by
    cases fuel with
    | zero => exact absurd hf (by simp)
    | succ f =>
      intro c hc
      have hr : rest.length ≤ f := by simp at hf; omega
      rw [markStripGo] at hc
      by_cases hdm : d = m
      · rw [if_pos hdm] at hc
        cases rest with
        | nil =>
          rw [marksOkM] at hmk
          rw [hdm] at hmk
          simp at hmk
        | cons w rest2 =>
          have hw : isWordChar w = true := by
            rw [marksOkM, Bool.and_eq_true] at hmk
            have hpair := hmk.1
            rw [hdm] at hpair
            simpa using hpair
          rw [if_neg (by simp [List.takeWhile_cons, hw])] at hc
          have hdl : (List.dropWhile isWordChar (w :: rest2)).length ≤ f := by
            rw [List.dropWhile_cons, if_pos hw]
            have h5 := (List.dropWhile_sublist (p := isWordChar) (l := rest2)).length_le
            simp at hr
            omega
          exact markStripGo_kill m hm f _ hdl
            (marksOkM_dropWhile m isWordChar _ (marksOkM_tail hmk)) c hc
      · rw [if_neg hdm] at hc
        rcases List.mem_cons.mp hc with h1 | h1
        · rw [h1]; exact hdm
        · exact markStripGo_kill m hm f rest hr (marksOkM_tail hmk) c h1

theorem markStripGo_marks (m m2 : Char) (hm : isWordChar m = false) :
    ∀ (fuel : Nat) (l : List Char), l.length ≤ fuel → marksOkM m l = true →
    marksOkM m2 l = true → marksOkM m2 (markStripGo m isWordChar fuel l) = true
  | fuel, [], _, _, _ => by
    cases fuel with
    | zero => rfl
    | succ f => rfl
  | fuel, d :: rest, hf, hmk, hmk2 => by
    cases fuel with
    | zero => exact absurd hf (by simp)
    | succ f =>
      have hr : rest.length ≤ f := by simp at hf; omega
      rw [markStripGo]
      by_cases hdm : d = m
      · rw [if_pos hdm]
        cases rest with
        | nil =>
          rw [marksOkM] at hmk
          rw [hdm] at hmk
          simp at hmk
        | cons w rest2 =>
          have hw : isWordChar w = true := by
            rw [marksOkM, Bool.and_eq_true] at hmk
            have hpair := hmk.1
            rw [hdm] at hpair
            simpa using hpair
          rw [if_neg (by simp [List.takeWhile_cons, hw])]
          have hdl : (List.dropWhile isWordChar (w :: rest2)).length ≤ f := by
            rw [List.dropWhile_cons, if_pos hw]
            have h5 := (List.dropWhile_sublist (p := isWordChar) (l := rest2)).length_le
            simp at hr
            omega
          exact markStripGo_marks m m2 hm f _ hdl
            (marksOkM_dropWhile m isWordChar _ (marksOkM_tail hmk))
            (marksOkM_dropWhile m2 isWordChar _ (marksOkM_tail hmk2))
      · rw [if_neg hdm]
        have hih := markStripGo_marks m m2 hm f rest hr (marksOkM_tail hmk) (marksOkM_tail hmk2)
        by_cases hdm2 : d = m2
        · cases rest with
          | nil =>
            rw [marksOkM] at hmk2
            rw [hdm2] at hmk2
            simp at hmk2
          | cons w rest2 =>
            have hw : isWordChar w = true := by
              rw [marksOkM, Bool.and_eq_true] at hmk2
              have hpair := hmk2.1
              rw [hdm2] at hpair
              simpa using hpair
            have hwm : w ≠ m := isWordChar_ne hw hm
            cases f with
            | zero => simp at hr
            | succ f3 =>
              rw [markStripGo, if_neg hwm] at hih ⊢
              rw [marksOkM, Bool.and_eq_true]
              exact ⟨by simp [hw], hih⟩
        · cases hX : markStripGo m isWordChar f rest with
          | nil => simp [marksOkM, hdm2]
          | cons x xs =>
            rw [hX] at hih
            rw [marksOkM, Bool.and_eq_true]
            exact ⟨by simp [hdm2], hih⟩

theorem trimWs_subset (l : List Char) (c : Char) (h : c ∈ trimWs l) : c ∈ l := by
  rw [trimWs] at h
  rw [List.mem_reverse] at h
  have h2 := (List.dropWhile_sublist isSpaceChar).mem h
  rw [List.mem_reverse] at h2
  exact (List.dropWhile_sublist isSpaceChar).mem h2

theorem collapseWsGo_subset : ∀ (fuel : Nat) (l : List Char) (c : Char),
    c ∈ collapseWsGo fuel l → c ∈ l ∨ c = ' '
  | 0, _, _, h => Or.inl h
  | _ + 1, [], c, h => absurd h (List.not_mem_nil c)
  | fuel + 1, d :: rest, c, h => by
    rw [collapseWsGo] at h
    by_cases hd : isSpaceChar d = true
    · rw [if_pos hd] at h
      rcases List.mem_cons.mp h with h1 | h1
      · exact Or.inr h1
      · rcases collapseWsGo_subset fuel _ c h1 with h2 | h2
        · exact Or.inl (List.mem_cons_of_mem d ((List.dropWhile_sublist isSpaceChar).mem h2))
        · exact Or.inr h2
    · rw [if_neg hd] at h
      rcases List.mem_cons.mp h with h1 | h1
      · exact Or.inl (h1 ▸ List.mem_cons_self d rest)
      · rcases collapseWsGo_subset fuel rest c h1 with h2 | h2
        · exact Or.inl (List.mem_cons_of_mem d h2)
        · exact Or.inr h2

theorem stripTags_clean (s : String) (h1 : bracketOk s.data = true)
    (h2 : marksOkM '@' s.data = true) (h3 : marksOkM '#' s.data = true) :
    ∀ c ∈ (removeTagsFromString s).data, c ≠ '[' ∧ c ≠ '@' ∧ c ≠ '#' := by
  intro c hc
  rcases collapseWsGo_subset _ _ c hc with h4 | h4
  · have h5 := trimWs_subset _ c h4
    have A1 : ∀ x ∈ bracketStrip s.data, x ≠ '[' :=
      bracketStripGo_clean s.data.length s.data.length s.data le_rfl le_rfl h1
    have A2 : marksOkM '@' (bracketStrip s.data) = true :=
      bracketStripGo_marks '@' s.data.length s.data.length s.data le_rfl le_rfl h1 h2
    have A3 : marksOkM '#' (bracketStrip s.data) = true :=
      bracketStripGo_marks '#' s.data.length s.data.length s.data le_rfl le_rfl h1 h3
    have B1 : ∀ x ∈ markStrip '@' isWordChar (bracketStrip s.data), x ≠ '@' :=
      markStripGo_kill '@' (by decide) (bracketStrip s.data).length _ le_rfl A2
    have B3 : marksOkM '#' (markStrip '@' isWordChar (bracketStrip s.data)) = true :=
      markStripGo_marks '@' '#' (by decide) (bracketStrip s.data).length _ le_rfl A2 A3
    have C1 : ∀ x ∈ markStrip '#' isWordChar (markStrip '@' isWordChar (bracketStrip s.data)),
        x ≠ '#' :=
      markStripGo_kill '#' (by decide)
        (markStrip '@' isWordChar (bracketStrip s.data)).length _ le_rfl B3
    have hm3 : c ∈ markStrip '#' isWordChar (markStrip '@' isWordChar (bracketStrip s.data)) := h5
    have hm2 : c ∈ markStrip '@' isWordChar (bracketStrip s.data) :=
      markStripGo_subset '#' isWordChar _ _ c hm3
    have hm1 : c ∈ bracketStrip s.data := markStripGo_subset '@' isWordChar _ _ c hm2
    exact ⟨A1 c hm1, B1 c hm2, C1 c hm3⟩
  · rw [h4]
    exact ⟨by decide, by decide, by decide⟩


/-- C3, counterexample: the text `[A] [A[B]]` contains the well-formed tag
token `[A]` (extracted as `a`), yet `removeTagsFromString` returns `[A]`,
which still contains that original tag substring: the second chunk's inner
token `[B]` is removed by the global replace, leaving a fresh `[A]` behind. -/
theorem claim_C3_counterexample :
    extractTagsFromString "[A] [A[B]]" = ["a", "b"] ∧
    removeTagsFromString "[A] [A[B]]" = "[A]" ∧
    strIncludes (removeTagsFromString "[A] [A[B]]") "[A]" = true :=
  ⟨by decide, by decide, by decide⟩

/-- C3 (amended): on texts whose `[`-marks all open well-formed bracket
tokens and whose `@`/`#` marks all head word characters, the strip removes
every tag: the output contains no `[`, `@` or `#`, hence no well-formed tag
token (each contains its marker) survives as a substring; and a token body
legal in all three surface syntaxes extracts to the same single lowercase
tag from each of them. -/
theorem claim_C3_tag_round_trip :
    (∀ (s tok : String), bracketOk s.data = true → marksOkM '@' s.data = true →
      marksOkM '#' s.data = true →
      (tok.data.any fun c => c = '[' || c = '@' || c = '#') = true →
      strIncludes (removeTagsFromString s) tok = false) ∧
    (∀ b : List Char, b ≠ [] → (∀ c ∈ b, isTagChar c = true ∧ isWordChar c = true) →
      extractTagsFromString (String.mk ('[' :: (b ++ [']']))) = [String.mk (lowerTok b)] ∧
      extractTagsFromString (String.mk ('@' :: b)) = [String.mk (lowerTok b)] ∧
      extractTagsFromString (String.mk ('#' :: b)) = [String.mk (lowerTok b)]) := by
  constructor
  · intro s tok hb h2 h3 htok
    have hclean := stripTags_clean s hb h2 h3
    rw [strIncludes, containsSub, List.any_eq_false]
    intro i _hi
    intro hpre
    obtain ⟨c, hcmem, hcm⟩ := List.any_eq_true.mp htok
    have hcout : c ∈ (removeTagsFromString s).data.drop i :=
      (List.isPrefixOf_iff_prefix.mp hpre).sublist.mem hcmem
    have hcall : c ∈ (removeTagsFromString s).data := List.mem_of_mem_drop hcout
    obtain ⟨n1, n2, n3⟩ := hclean c hcall
    simp at hcm
    rcases hcm with (h | h) | h
    · exact n1 h
    · exact n2 h
    · exact n3 h
  · intro b hb hmix
    exact ⟨extract_bracket b hb (fun c hc => (hmix c hc).1),
      extract_mark '@' (Or.inl rfl) b hb (fun c hc => (hmix c hc).2),
      extract_mark '#' (Or.inr rfl) b hb (fun c hc => (hmix c hc).2)⟩

theorem claim_C3_witness :
    (bracketOk "login works [SMOKE] @p1 #fast".data = true ∧
     marksOkM '@' "login works [SMOKE] @p1 #fast".data = true ∧
     marksOkM '#' "login works [SMOKE] @p1 #fast".data = true ∧
     ("[SMOKE]".data.any fun c => c = '[' || c = '@' || c = '#') = true ∧
     strIncludes (removeTagsFromString "login works [SMOKE] @p1 #fast") "[SMOKE]" = false) ∧
    (extractTagsFromString (String.mk ('[' :: (['P', '1'] ++ [']']))) =
      [String.mk (lowerTok ['P', '1'])] ∧
     extractTagsFromString (String.mk ('@' :: ['P', '1'])) = [String.mk (lowerTok ['P', '1'])] ∧
     extractTagsFromString (String.mk ('#' :: ['P', '1'])) = [String.mk (lowerTok ['P', '1'])]) :=
  ⟨⟨by decide, by decide, by decide, by decide,
    claim_C3_tag_round_trip.1 "login works [SMOKE] @p1 #fast" "[SMOKE]"
      (by decide) (by decide) (by decide) (by decide)⟩,
   claim_C3_tag_round_trip.2 ['P', '1'] (by decide) (by decide)⟩

end MCPMigration
